import Mathlib

/-!
# Claim chaincode: a shallow embedding of `chaincode_finished.go`

The chaincode keeps a key/value ledger behind the Fabric shim and offers four
operations (`init`, `write`, `read`, `init_claim`).  This development embeds the
handlers as state-passing functions over an explicit ledger, together with a model
of the two library services the handlers lean on: the shim stub (`GetState`,
`PutState`) and Go's `encoding/json` (`Unmarshal` into `SmartClaim` and `[]string`,
`Marshal` of `[]string`).

Conventions.
* A Go `string` / `[]byte` is a Lean `String`: arguments reach the chaincode as
  protobuf strings, hence as valid UTF-8, and the JSON codec is modelled on code
  points.  A nil byte slice is `none`.
* A Go `(payload, error)` result is a `Reply`.
* The wall clock read by `makeTimestamp` is an explicit argument `unixNano`.
-/

namespace Fyp

/-! ## Go's `encoding/json`, restricted to what the chaincode uses -/

/-- Parsed JSON text.  Numbers keep their literal, strings are already unquoted. -/
inductive JValue where
  | null
  | bool (b : Bool)
  | number (lit : List Char)
  | string (s : List Char)
  | array (elems : List JValue)
  | object (members : List (List Char × JValue))

/-- The four bytes the scanner treats as insignificant white space. -/
def isSpace (c : Char) : Bool :=
  c = ' ' || c = '\t' || c = '\r' || c = '\n'

/-- Drop leading white space. -/
def skipSpace : List Char → List Char
  | [] => []
  | c :: cs => if isSpace c then skipSpace cs else c :: cs

/-- Value of a hexadecimal digit, either case. -/
def hexVal (c : Char) : Option Nat :=
  if '0' ≤ c ∧ c ≤ '9' then some (c.toNat - 48)
  else if 'a' ≤ c ∧ c ≤ 'f' then some (c.toNat - 87)
  else if 'A' ≤ c ∧ c ≤ 'F' then some (c.toNat - 55)
  else none

/-- The four hex digits of a `\u` escape, as a UTF-16 code unit. -/
def hex4 (a b c d : Char) : Option Nat :=
  match hexVal a, hexVal b, hexVal c, hexVal d with
  | some x, some y, some z, some w => some (((x * 16 + y) * 16 + z) * 16 + w)
  | _, _, _, _ => none

/-- One unit of a string literal's body: a character (written plainly or through a
one-letter escape) or the code unit of a `\u` escape. -/
inductive StrTok where
  | lit (c : Char)
  | u4 (n : Nat)

/-- The character a one-letter escape stands for. -/
def simpleEscape (e : Char) : Option Char :=
  if e = '"' then some '"'
  else if e = '\\' then some '\\'
  else if e = '/' then some '/'
  else if e = 'b' then some (Char.ofNat 8)
  else if e = 'f' then some (Char.ofNat 12)
  else if e = 'n' then some '\n'
  else if e = 'r' then some '\r'
  else if e = 't' then some '\t'
  else none

/-- Scan the body of a string literal, the opening quote already consumed, up to and
including the closing quote.  Control characters and unknown escapes are syntax
errors. -/
def scanStringBody : List Char → Option (List StrTok × List Char)
  | [] => none
  | c :: rest =>
    if c = '"' then some ([], rest)
    else if c = '\\' then
      match rest with
      | [] => none
      | e :: rest1 =>
        if e = 'u' then
          match rest1 with
          | h1 :: h2 :: h3 :: h4 :: rest2 =>
            match hex4 h1 h2 h3 h4 with
            | none => none
            | some n =>
              match scanStringBody rest2 with
              | none => none
              | some (ts, r) => some (StrTok.u4 n :: ts, r)
          | _ => none
        else
          match simpleEscape e with
          | none => none
          | some ch =>
            match scanStringBody rest1 with
            | none => none
            | some (ts, r) => some (StrTok.lit ch :: ts, r)
    else if c.toNat < 32 then none
    else
      match scanStringBody rest with
      | none => none
      | some (ts, r) => some (StrTok.lit c :: ts, r)

/-- The replacement character U+FFFD. -/
def replacementChar : Char := Char.ofNat 65533

/-- Turn scanned units into characters (`unquote`): a high surrogate directly followed
by a low surrogate is one character, any other surrogate becomes U+FFFD.  The first
argument is the high surrogate just read and still waiting for its partner. -/
def decodeToks : Option Nat → List StrTok → List Char
  | none, [] => []
  | some _, [] => [replacementChar]
  | none, StrTok.lit c :: ts => c :: decodeToks none ts
  | some _, StrTok.lit c :: ts => replacementChar :: c :: decodeToks none ts
  | none, StrTok.u4 n :: ts =>
    if 55296 ≤ n ∧ n < 56320 then decodeToks (some n) ts
    else if 56320 ≤ n ∧ n < 57344 then replacementChar :: decodeToks none ts
    else Char.ofNat n :: decodeToks none ts
  | some h, StrTok.u4 m :: ts =>
    if 56320 ≤ m ∧ m < 57344 then
      Char.ofNat (65536 + (h - 55296) * 1024 + (m - 56320)) :: decodeToks none ts
    else if 55296 ≤ m ∧ m < 56320 then replacementChar :: decodeToks (some m) ts
    else replacementChar :: Char.ofNat m :: decodeToks none ts

/-- A string literal after its opening quote: the unquoted text and the rest. -/
def scanString (cs : List Char) : Option (List Char × List Char) :=
  match scanStringBody cs with
  | none => none
  | some (ts, r) => some (decodeToks none ts, r)

/-- Decimal digit test. -/
def isDigit (c : Char) : Bool := '0' ≤ c && c ≤ '9'

/-- Longest prefix of decimal digits, and the rest. -/
def spanDigits : List Char → List Char × List Char
  | [] => ([], [])
  | c :: cs =>
    if isDigit c then ((spanDigits cs).1.cons c, (spanDigits cs).2) else ([], c :: cs)

/-- Optional exponent of a number literal. -/
def scanExp (cs : List Char) : Option (List Char × List Char) :=
  match cs with
  | [] => some ([], [])
  | e :: r =>
    if e = 'e' ∨ e = 'E' then
      match r with
      | [] => none
      | s :: r1 =>
        if s = '+' ∨ s = '-' then
          (if (spanDigits r1).1 = [] then none
           else some (e :: s :: (spanDigits r1).1, (spanDigits r1).2))
        else
          (if (spanDigits r).1 = [] then none
           else some (e :: (spanDigits r).1, (spanDigits r).2))
    else some ([], cs)

/-- Optional fraction and exponent of a number literal. -/
def scanFrac (cs : List Char) : Option (List Char × List Char) :=
  match cs with
  | [] => some ([], [])
  | d :: r =>
    if d = '.' then
      (if (spanDigits r).1 = [] then none
       else
         match scanExp (spanDigits r).2 with
         | none => none
         | some (ex, r1) => some (d :: ((spanDigits r).1 ++ ex), r1))
    else scanExp cs

/-- Integer part of a number literal: a lone `0`, or a digit string without a leading
zero; then the optional fraction and exponent. -/
def scanUnsigned (cs : List Char) : Option (List Char × List Char) :=
  match cs with
  | [] => none
  | d :: r =>
    if d = '0' then
      match scanFrac r with
      | none => none
      | some (t, r1) => some (d :: t, r1)
    else if isDigit d then
      match scanFrac (spanDigits r).2 with
      | none => none
      | some (t, r1) => some (d :: ((spanDigits r).1 ++ t), r1)
    else none

/-- A number literal, `-?(0|[1-9][0-9]*)(\.[0-9]+)?([eE][+-]?[0-9]+)?`. -/
def scanNumber (cs : List Char) : Option (List Char × List Char) :=
  match cs with
  | [] => none
  | c :: r =>
    if c = '-' then
      match scanUnsigned r with
      | none => none
      | some (t, r1) => some (c :: t, r1)
    else scanUnsigned cs

/-- Strip a fixed word off the front of the input. -/
def stripWord : List Char → List Char → Option (List Char)
  | [], cs => some cs
  | _ :: _, [] => none
  | w :: ws, c :: cs => if w = c then stripWord ws cs else none

mutual
/-- One JSON value, leading white space allowed, with the unread rest.  The fuel bounds
the number of nested and successive values; `parseJSON` supplies enough of it. -/
def parseValue : Nat → List Char → Option (JValue × List Char)
  | 0, _ => none
  | fuel + 1, cs =>
    match skipSpace cs with
    | [] => none
    | c :: rest =>
      if c = '{' then
        match skipSpace rest with
        | [] => none
        | d :: rest1 =>
          if d = '}' then some (JValue.object [], rest1)
          else parseMembers fuel [] (d :: rest1)
      else if c = '[' then
        match skipSpace rest with
        | [] => none
        | d :: rest1 =>
          if d = ']' then some (JValue.array [], rest1)
          else parseElems fuel [] (d :: rest1)
      else if c = '"' then
        match scanString rest with
        | none => none
        | some (s, r) => some (JValue.string s, r)
      else if c = 't' then
        match stripWord ['r', 'u', 'e'] rest with
        | none => none
        | some r => some (JValue.bool true, r)
      else if c = 'f' then
        match stripWord ['a', 'l', 's', 'e'] rest with
        | none => none
        | some r => some (JValue.bool false, r)
      else if c = 'n' then
        match stripWord ['u', 'l', 'l'] rest with
        | none => none
        | some r => some (JValue.null, r)
      else
        match scanNumber (c :: rest) with
        | none => none
        | some (lit, r) => some (JValue.number lit, r)
/-- The elements of an array after `[`, up to and including `]`. -/
def parseElems : Nat → List JValue → List Char → Option (JValue × List Char)
  | 0, _, _ => none
  | fuel + 1, acc, cs =>
    match parseValue fuel cs with
    | none => none
    | some (v, r) =>
      match skipSpace r with
      | [] => none
      | c :: r1 =>
        if c = ',' then parseElems fuel (acc ++ [v]) r1
        else if c = ']' then some (JValue.array (acc ++ [v]), r1)
        else none
/-- The members of an object after `{`, up to and including `}`. -/
def parseMembers : Nat → List (List Char × JValue) → List Char → Option (JValue × List Char)
  | 0, _, _ => none
  | fuel + 1, acc, cs =>
    match skipSpace cs with
    | [] => none
    | q :: r =>
      if q = '"' then
        match scanString r with
        | none => none
        | some (k, r1) =>
          match skipSpace r1 with
          | [] => none
          | c :: r2 =>
            if c = ':' then
              match parseValue fuel r2 with
              | none => none
              | some (v, r3) =>
                match skipSpace r3 with
                | [] => none
                | e :: r4 =>
                  if e = ',' then parseMembers fuel (acc ++ [(k, v)]) r4
                  else if e = '}' then some (JValue.object (acc ++ [(k, v)]), r4)
                  else none
            else none
      else none
end

/-- A whole JSON text (`checkValid` and the parse in one): exactly one value, white
space allowed around it.  `none` is a syntax error, on which `Unmarshal` leaves its
target untouched.  The fuel is twice the length of the text: a value costs one unit and
an array or object one more, and each of them reads at least one character. -/
def parseJSON (data : List Char) : Option JValue :=
  match parseValue (2 * data.length + 2) data with
  | none => none
  | some (v, r) => if skipSpace r = [] then some v else none

/-- The chaincode's customer record (declared, not used by any handler). -/
structure Customer where
  Id : String
  FirstName : String
  LastName : String
  deriving DecidableEq, Repr

/-- The chaincode's claim record; the JSON member names come from the field tags. -/
structure SmartClaim where
  Id : String
  CustomerId : String
  ClaimDate : Int
  ClaimAmount : String
  deriving DecidableEq, Repr

/-- Case folding of one character of an object key: ASCII letters to upper case, and
the two non-ASCII characters whose simple fold is an ASCII letter (long s U+017F and
the Kelvin sign U+212A). -/
def foldChar (c : Char) : Char :=
  if 'a' ≤ c ∧ c ≤ 'z' then Char.ofNat (c.toNat - 32)
  else if c = Char.ofNat 383 then 'S'
  else if c = Char.ofNat 8490 then 'K'
  else c

/-- A key selects a field when it equals the field's JSON name, exactly or up to case
folding.  (No two names of `SmartClaim` fold to the same text, so a key selects at
most one field and the preference for the exact match never decides.) -/
def equalFold (name key : List Char) : Bool :=
  name.map foldChar = key.map foldChar

/-- `strconv.ParseInt(s, 10, 64)`: an optional sign and at least one decimal digit,
the value within the 64-bit range. -/
def ParseInt (cs : List Char) : Option Int :=
  let neg := cs.head? = some '-'
  let ds := if cs.head? = some '-' ∨ cs.head? = some '+' then cs.tail else cs
  if ds = [] ∨ ds.all isDigit = false then none
  else
    let n : Int := (ds.foldl (fun a c => 10 * a + (c.toNat - 48)) 0 : Nat)
    let v : Int := if neg then -n else n
    if v < -9223372036854775808 ∨ 9223372036854775807 < v then none else some v

/-- `strconv.Atoi` on a platform whose `int` has 64 bits. -/
def Atoi (s : String) : Option Int := ParseInt s.data

/-- `strconv.FormatInt(i, 10)`. -/
def FormatInt (i : Int) : String :=
  if i < 0 then "-" ++ Nat.repr i.natAbs else Nat.repr i.toNat

/-- `strconv.Itoa`. -/
def Itoa (i : Int) : String := FormatInt i

/-- Store one object member into the record.  A value of the wrong JSON kind for the
field (and `null`) leaves the field as it is and decoding goes on; an unknown key is
skipped. -/
def setField (res : SmartClaim) (kv : List Char × JValue) : SmartClaim :=
  if equalFold "id".data kv.1 then
    match kv.2 with
    | JValue.string s => { res with Id := String.mk s }
    | _ => res
  else if equalFold "customerId".data kv.1 then
    match kv.2 with
    | JValue.string s => { res with CustomerId := String.mk s }
    | _ => res
  else if equalFold "claimDate".data kv.1 then
    match kv.2 with
    | JValue.number lit =>
      match ParseInt lit with
      | some n => { res with ClaimDate := n }
      | none => res
    | _ => res
  else if equalFold "claimAmount".data kv.1 then
    match kv.2 with
    | JValue.string s => { res with ClaimAmount := String.mk s }
    | _ => res
  else res

/-- The bytes handed to `json.Unmarshal`: a nil slice is the empty input. -/
def bytesOf (data : Option String) : List Char :=
  match data with
  | none => []
  | some b => b.data

/-- `json.Unmarshal(data, &res)` for `res : SmartClaim`, the returned error dropped as
the chaincode drops it.  Invalid JSON and a top-level value that is not an object leave
`res` untouched; members are stored in order, so a later duplicate wins. -/
def jsonUnmarshalSmartClaim (data : Option String) (res : SmartClaim) : SmartClaim :=
  match parseJSON (bytesOf data) with
  | some (JValue.object members) => members.foldl setField res
  | _ => res

/-- An array element decoded into a `string` slot: a JSON string is stored, anything
else leaves the zero value. -/
def elemString (v : JValue) : String :=
  match v with
  | JValue.string s => String.mk s
  | _ => ""

/-- `json.Unmarshal(data, &claimIndex)` for `claimIndex : []string`, the returned error
dropped.  A nil slice is the empty list.  Invalid JSON and a top-level value that is
neither an array nor `null` leave the slice untouched. -/
def jsonUnmarshalStrings (data : Option String) (claimIndex : List String) : List String :=
  match parseJSON (bytesOf data) with
  | some (JValue.array elems) => elems.map elemString
  | some JValue.null => []
  | _ => claimIndex

/-- Lower-case hexadecimal digit. -/
def hexDigit (n : Nat) : Char :=
  if n < 10 then Char.ofNat (48 + n) else Char.ofNat (87 + n)

/-- How `json.Marshal` writes one character of a string: quote and backslash behind a
backslash, the usual short forms for line feed, carriage return and tab, a `\u00XX`
escape for the other control characters and for `<`, `>`, `&`, and a `\u` escape for the
two line separators; everything else as it is. -/
def escapeChar (c : Char) : List Char :=
  if c = '"' then ['\\', '"']
  else if c = '\\' then ['\\', '\\']
  else if c = '\n' then ['\\', 'n']
  else if c = '\r' then ['\\', 'r']
  else if c = '\t' then ['\\', 't']
  else if c.toNat < 32 ∨ c = '<' ∨ c = '>' ∨ c = '&' then
    ['\\', 'u', '0', '0', hexDigit (c.toNat / 16), hexDigit (c.toNat % 16)]
  else if c = Char.ofNat 8232 then ['\\', 'u', '2', '0', '2', '8']
  else if c = Char.ofNat 8233 then ['\\', 'u', '2', '0', '2', '9']
  else [c]

/-- The escaped body of a string literal. -/
def escapeString : List Char → List Char
  | [] => []
  | c :: cs => escapeChar c ++ escapeString cs

/-- A string literal as `json.Marshal` writes it. -/
def quoteString (s : String) : List Char :=
  '"' :: (escapeString s.data ++ ['"'])

/-- The elements of an array after the first, each behind its comma. -/
def marshalTail : List String → List Char
  | [] => []
  | x :: xs => ',' :: (quoteString x ++ marshalTail xs)

/-- `json.Marshal(claimIndex)` for a non-nil `[]string`.  (The chaincode marshals the
slice right after an `append`, so it is never nil there.) -/
def jsonMarshalStrings (claimIndex : List String) : String :=
  match claimIndex with
  | [] => "[]"
  | x :: xs => String.mk ('[' :: (quoteString x ++ (marshalTail xs ++ [']'])))

/-! ## The shim stub -/

/-- The ledger as the chaincode sees it through `shim.ChaincodeStubInterface`.
`state` is the key/value world state, `writes` the puts that went through, in order.
`getErr` and `putErr` say for which keys the backend refuses `GetState` / `PutState`,
and with which error. -/
structure ChaincodeStub where
  state : String → Option String
  writes : List (String × String)
  getErr : String → Option String
  putErr : String → Option String

/-- `stub.GetState(key)`: the backend's error, or the stored bytes; a key that holds
nothing yields nil bytes and no error. -/
def GetState (stub : ChaincodeStub) (key : String) : Except String (Option String) :=
  match stub.getErr key with
  | some err => Except.error err
  | none => Except.ok (stub.state key)

/-- `stub.PutState(key, value)`: the backend's error and an untouched ledger, or no
error and the ledger with `value` under `key`. -/
def PutState (stub : ChaincodeStub) (key value : String) : Option String × ChaincodeStub :=
  match stub.putErr key with
  | some err => (some err, stub)
  | none =>
    (none,
      { stub with
        state := fun k => if k = key then some value else stub.state k
        writes := stub.writes ++ [(key, value)] })

/-- A ledger that holds nothing and whose backend never fails. -/
def emptyStub : ChaincodeStub where
  state := fun _ => none
  writes := []
  getErr := fun _ => none
  putErr := fun _ => none

/-! ## The chaincode -/

/-- What a handler returns: Go's `([]byte, error)` with exactly one side set (or both
nil, which is `ok none`). -/
inductive Reply where
  | ok (payload : Option String)
  | error (msg : String)
  deriving DecidableEq, Repr

/-- Name of the key that holds the list of all known claims. -/
def claimIndexStr : String := "_claimindex"

/-- `time.Millisecond / time.Nanosecond`. -/
def nanosPerMilli : Int := 1000000 / 1

/-- The current time in milliseconds, `unixNano` being `time.Now().UnixNano()`. -/
def makeTimestamp (unixNano : Int) : Int :=
  Int.tdiv unixNano nanosPerMilli

/-- Handler `Init`: seeds the test key `abc` with the integer argument. -/
def Init (stub : ChaincodeStub) (function : String) (args : List String) :
    Reply × ChaincodeStub :=
  if args.length ≠ 1 then
    (Reply.error "Incorrect number of arguments. Expecting 1", stub)
  else
    match Atoi (args.getD 0 "") with
    | none => (Reply.error "Expecting integer value for asset holding", stub)
    | some Aval =>
      match PutState stub "abc" (Itoa Aval) with
      | (some err, stub1) => (Reply.error err, stub1)
      | (none, stub1) => (Reply.ok none, stub1)

/-- Handler `write`: puts a value under a key. -/
def write (stub : ChaincodeStub) (args : List String) : Reply × ChaincodeStub :=
  if args.length ≠ 2 then
    (Reply.error "Incorrect number of arguments. Expecting 2. name of the key and value to set",
      stub)
  else
    let key := args.getD 0 ""
    let value := args.getD 1 ""
    match PutState stub key value with
    | (some err, stub1) => (Reply.error err, stub1)
    | (none, stub1) => (Reply.ok none, stub1)

/-- Handler `read`: returns the bytes under a key. -/
def read (stub : ChaincodeStub) (args : List String) : Reply × ChaincodeStub :=
  if args.length ≠ 1 then
    (Reply.error "Incorrect number of arguments. Expecting name of the key to query", stub)
  else
    let key := args.getD 0 ""
    match GetState stub key with
    | Except.error _ =>
      (Reply.error ("\x7b\"Error\":\"Failed to get state for " ++ key ++ "\"\x7d"), stub)
    | Except.ok valAsbytes => (Reply.ok valAsbytes, stub)

/-- The claim's JSON text as `init_claim` concatenates it. -/
def claimJson (claimId customerId amount : String) (claimDate : Int) : String :=
  "\x7b\"id\": \"" ++ claimId ++ "\", \"customerId\": \"" ++ customerId ++
    "\", \"claimAmount\": " ++ amount ++ ", \"claimDate\": \"" ++ FormatInt claimDate ++ "\"\x7d"

/-- Handler `init_claim`: creates a claim and appends its id to the claim index. -/
def init_claim (stub : ChaincodeStub) (unixNano : Int) (args : List String) :
    Reply × ChaincodeStub :=
  if args.length ≠ 3 then
    (Reply.error "Incorrect number of arguments. Expecting 3", stub)
  else if (args.getD 0 "").length ≤ 0 then
    (Reply.error "1st argument must be a non-empty string", stub)
  else if (args.getD 1 "").length ≤ 0 then
    (Reply.error "2nd argument must be a non-empty string", stub)
  else if (args.getD 2 "").length ≤ 0 then
    (Reply.error "3rd argument must be a non-empty string", stub)
  else
    let claimId := args.getD 0 ""
    let customerId := args.getD 1 ""
    let amount := args.getD 2 ""
    let claimDate := makeTimestamp unixNano
    match GetState stub claimId with
    | Except.error _ => (Reply.error "Failed to get marble name", stub)
    | Except.ok marbleAsBytes =>
      let res := jsonUnmarshalSmartClaim marbleAsBytes ⟨"", "", 0, ""⟩
      if res.Id = claimId then
        (Reply.error "This claim arleady exists", stub)
      else
        let str := claimJson claimId customerId amount claimDate
        match PutState stub claimId str with
        | (some err, stub1) => (Reply.error err, stub1)
        | (none, stub1) =>
          match GetState stub1 claimIndexStr with
          | Except.error _ => (Reply.error "Failed to get claim index", stub1)
          | Except.ok claimsAsBytes =>
            let claimIndex := jsonUnmarshalStrings claimsAsBytes []
            let claimIndex1 := claimIndex ++ [claimId]
            let jsonAsBytes := jsonMarshalStrings claimIndex1
            (Reply.ok none, (PutState stub1 claimIndexStr jsonAsBytes).2)

/-- Entry point `Invoke`. -/
def Invoke (stub : ChaincodeStub) (unixNano : Int) (function : String) (args : List String) :
    Reply × ChaincodeStub :=
  if function = "init" then Init stub "init" args
  else if function = "write" then write stub args
  else if function = "init_claim" then init_claim stub unixNano args
  else (Reply.error ("Received unknown function invocation: " ++ function), stub)

/-- Entry point `Run`, the older name of `Invoke`. -/
def Run (stub : ChaincodeStub) (unixNano : Int) (function : String) (args : List String) :
    Reply × ChaincodeStub :=
  Invoke stub unixNano function args

/-- Entry point `Query`. -/
def Query (stub : ChaincodeStub) (function : String) (args : List String) :
    Reply × ChaincodeStub :=
  if function = "read" then read stub args
  else (Reply.error ("Received unknown function query: " ++ function), stub)

/-- A run of `init_claim` invocations, each with its clock reading and argument list:
the replies in call order and the final stub. -/
def runClaims (stub : ChaincodeStub) : List (Int × List String) → List Reply × ChaincodeStub
  | [] => ([], stub)
  | call :: rest =>
    ((init_claim stub call.1 call.2).1 :: (runClaims (init_claim stub call.1 call.2).2 rest).1,
      (runClaims (init_claim stub call.1 call.2).2 rest).2)

/-- The claim ids of a run, in call order. -/
def claimIds (calls : List (Int × List String)) : List String :=
  calls.map (fun call => call.2.getD 0 "")

/-- The claim index as `init_claim` reads it from the ledger. -/
def loadIndex (stub : ChaincodeStub) : List String :=
  jsonUnmarshalStrings (stub.state claimIndexStr) []

/-- The claim record as `init_claim` reads it from the ledger for its existence check. -/
def loadClaim (stub : ChaincodeStub) (key : String) : SmartClaim :=
  jsonUnmarshalSmartClaim (stub.state key) ⟨"", "", 0, ""⟩

/-- An empty ledger whose backend refuses every put of the claim index. -/
def indexPutRefused : ChaincodeStub where
  state := fun _ => none
  writes := []
  getErr := fun _ => none
  putErr := fun k => if k = claimIndexStr then some "ledger refused the put" else none

/-- The texts of the errors with which the handlers turn down their arguments. -/
def validationMessages : List String :=
  ["Incorrect number of arguments. Expecting 1",
   "Expecting integer value for asset holding",
   "Incorrect number of arguments. Expecting 2. name of the key and value to set",
   "Incorrect number of arguments. Expecting name of the key to query",
   "Incorrect number of arguments. Expecting 3",
   "1st argument must be a non-empty string",
   "2nd argument must be a non-empty string",
   "3rd argument must be a non-empty string"]

/-- ASCII letter or decimal digit. -/
def isAlnum (c : Char) : Bool :=
  ('0' ≤ c && c ≤ '9') || ('a' ≤ c && c ≤ 'z') || ('A' ≤ c && c ≤ 'Z')

/-- A string of ASCII letters and decimal digits only. -/
def allAlnum (s : String) : Bool := s.data.all isAlnum

/-- A string that is, as a whole, one JSON number literal. -/
def isNumberLiteral (s : String) : Bool :=
  decide (scanNumber s.data = some (s.data, []))

/-- A character that stands for itself inside a JSON string literal: not the quote, not
the backslash, not a control character. -/
def plainChar (c : Char) : Prop :=
  c ≠ '"' ∧ c ≠ '\\' ∧ ¬ c.toNat < 32

/-- The ids of the calls of a run that `init_claim` answered with success, in call
order. -/
def succeededIds (stub : ChaincodeStub) : List (Int × List String) → List String
  | [] => []
  | call :: rest =>
    (if (init_claim stub call.1 call.2).1 = Reply.ok none then [call.2.getD 0 ""] else []) ++
      succeededIds (init_claim stub call.1 call.2).2 rest

/-- A call whose record `init_claim` can find again: either it is turned down for its
arguments (not three of them, or an empty one), or its id is not the index key and the
record text built from its arguments decodes to a claim with this id. -/
def wellFormedCall (call : Int × List String) : Bool :=
  match call.2 with
  | [id, cust, amount] =>
    decide (id = "") || decide (cust = "") || decide (amount = "") ||
      (decide (id ≠ claimIndexStr) &&
        decide ((jsonUnmarshalSmartClaim
          (some (claimJson id cust amount (makeTimestamp call.1))) ⟨"", "", 0, ""⟩).Id = id))
  | _ => true

/-- The index lists no id twice, does not list the index key, and every id it lists has
a record under it that decodes to this id. -/
def IndexSound (stub : ChaincodeStub) : Prop :=
  (loadIndex stub).Nodup ∧
    ∀ id ∈ loadIndex stub, id ≠ claimIndexStr ∧ (loadClaim stub id).Id = id

/-! ## Basic facts about strings and the stub -/

theorem length_le_zero_iff (s : String) : s.length ≤ 0 ↔ s = "" := by
  cases s with
  | mk cs =>
    cases cs with
    | nil => exact ⟨fun _ => rfl, fun _ => Nat.le_refl 0⟩
    | cons c cs =>
      constructor
      · intro h
        simp [String.length] at h
      · intro h
        exact absurd (congrArg String.data h) (by simp)

/-- On three non-empty arguments `init_claim` gets past its argument checks. -/
theorem init_claim_valid (stub : ChaincodeStub) (unixNano : Int) (id cust amount : String)
    (h1 : id ≠ "") (h2 : cust ≠ "") (h3 : amount ≠ "") :
    init_claim stub unixNano [id, cust, amount] =
      match GetState stub id with
      | Except.error _ => (Reply.error "Failed to get marble name", stub)
      | Except.ok marbleAsBytes =>
        if (jsonUnmarshalSmartClaim marbleAsBytes ⟨"", "", 0, ""⟩).Id = id then
          (Reply.error "This claim arleady exists", stub)
        else
          match PutState stub id (claimJson id cust amount (makeTimestamp unixNano)) with
          | (some err, stub1) => (Reply.error err, stub1)
          | (none, stub1) =>
            match GetState stub1 claimIndexStr with
            | Except.error _ => (Reply.error "Failed to get claim index", stub1)
            | Except.ok claimsAsBytes =>
              (Reply.ok none,
                (PutState stub1 claimIndexStr
                  (jsonMarshalStrings (jsonUnmarshalStrings claimsAsBytes [] ++ [id]))).2) := by
  have e1 : ¬ id.length ≤ 0 := fun h => h1 ((length_le_zero_iff id).1 h)
  have e2 : ¬ cust.length ≤ 0 := fun h => h2 ((length_le_zero_iff cust).1 h)
  have e3 : ¬ amount.length ≤ 0 := fun h => h3 ((length_le_zero_iff amount).1 h)
  simp only [init_claim, List.length_cons, List.length_nil, List.getD_cons_zero,
    List.getD_cons_succ, ne_eq, not_true_eq_false, if_false, e1, e2, e3]

/-- C2. Whenever one of the three arguments of `init_claim` is empty, the reply is the
validation error that names the first empty argument (1st, 2nd or 3rd), and the stub,
ledger and write log included, is returned as it was: no put is performed. -/
theorem C2_empty_argument_rejected (stub : ChaincodeStub) (unixNano : Int)
    (id cust amount : String) (h : id = "" ∨ cust = "" ∨ amount = "") :
    init_claim stub unixNano [id, cust, amount] =
      (Reply.error
        (if id = "" then "1st argument must be a non-empty string"
         else if cust = "" then "2nd argument must be a non-empty string"
         else "3rd argument must be a non-empty string"), stub) := by
  have e1 := length_le_zero_iff id
  have e2 := length_le_zero_iff cust
  have e3 := length_le_zero_iff amount
  by_cases h1 : id = ""
  · simp [init_claim, h1]
  · by_cases h2 : cust = ""
    · simp [init_claim, h1, h2, e1]
    · have h3 : amount = "" := by tauto
      simp [init_claim, h1, h2, h3, e1, e2]

theorem C2_empty_argument_rejected_witness :
    ("100" = "" ∨ "" = "" ∨ "150" = "") ∧
    init_claim emptyStub 0 ["100", "", "150"] =
      (Reply.error
        (if "100" = "" then "1st argument must be a non-empty string"
         else if "" = "" then "2nd argument must be a non-empty string"
         else "3rd argument must be a non-empty string"), emptyStub) :=
  ⟨Or.inr (Or.inl rfl), C2_empty_argument_rejected emptyStub 0 "100" "" "150" (Or.inr (Or.inl rfl))⟩

/-- C5, as the code has it. For a key that holds nothing, `read` hands back what
`GetState` hands back: a success with a nil payload when the backend answers, and the
error whose text carries the key only when the backend's get itself fails.  The stub is
returned unchanged either way. -/
theorem C5_read_absent_key (stub : ChaincodeStub) (key : String)
    (h : stub.state key = none) :
    read stub [key] =
      (match stub.getErr key with
        | none => Reply.ok none
        | some _ => Reply.error ("\x7b\"Error\":\"Failed to get state for " ++ key ++ "\"\x7d"),
       stub) := by
  simp only [read, GetState, List.length_cons, List.length_nil, List.getD_cons_zero]
  cases hg : stub.getErr key with
  | none => simp [h]
  | some e => simp

theorem C5_read_absent_key_witness :
    emptyStub.state "abc" = none ∧
    read emptyStub ["abc"] =
      (match emptyStub.getErr "abc" with
        | none => Reply.ok none
        | some _ => Reply.error ("\x7b\"Error\":\"Failed to get state for " ++ "abc" ++ "\"\x7d"),
       emptyStub) :=
  ⟨rfl, C5_read_absent_key emptyStub "abc" rfl⟩

/-- C5 as stated fails: on the empty ledger the key `abc` was never written, and
`read` answers with a success whose payload is nil instead of an error. -/
theorem C5_counterexample :
    emptyStub.state "abc" = none ∧ (read emptyStub ["abc"]).1 = Reply.ok none := by
  decide

/-- C6. If `write [key, value]` succeeds, then `read [key]` on the resulting ledger
returns exactly `value`, whatever the key and the value are (the empty value included),
the backend answering the get. -/
theorem C6_write_read_roundtrip (stub : ChaincodeStub) (key value : String)
    (hw : (write stub [key, value]).1 = Reply.ok none)
    (hg : stub.getErr key = none) :
    (read (write stub [key, value]).2 [key]).1 = Reply.ok (some value) := by
  simp only [write, PutState, List.length_cons, List.length_nil, List.getD_cons_zero,
    List.getD_cons_succ] at hw ⊢
  cases hp : stub.putErr key with
  | some e => simp [hp] at hw
  | none => simp [read, GetState, hg]

theorem C6_write_read_roundtrip_witness :
    (write emptyStub ["abc", "5"]).1 = Reply.ok none ∧ emptyStub.getErr "abc" = none ∧
    (read (write emptyStub ["abc", "5"]).2 ["abc"]).1 = Reply.ok (some "5") :=
  ⟨by decide, rfl, C6_write_read_roundtrip emptyStub "abc" "5" (by decide) rfl⟩

/-- C9. `Init` rejects an argument list that does not have exactly one element, and
one whose element `Atoi` does not parse, with a validation error and an untouched stub.
Otherwise it puts `Itoa (Atoi arg)` under the key `abc`: when the put goes through the
ledger holds that canonical decimal text under `abc` and every other key keeps its
value, and when the backend refuses the put its error is returned and nothing changes.
`+5` and `005` both parse to 5, which is written `5`. -/
theorem C9_Init_seeds_abc (stub : ChaincodeStub) (function : String) (args : List String) :
    (args.length ≠ 1 →
      Init stub function args =
        (Reply.error "Incorrect number of arguments. Expecting 1", stub)) ∧
    (∀ a, args = [a] → Atoi a = none →
      Init stub function args =
        (Reply.error "Expecting integer value for asset holding", stub)) ∧
    (∀ a v, args = [a] → Atoi a = some v → stub.putErr "abc" = none →
      (Init stub function args).1 = Reply.ok none ∧
      (Init stub function args).2.state "abc" = some (Itoa v) ∧
      (Init stub function args).2.writes = stub.writes ++ [("abc", Itoa v)] ∧
      ∀ k, k ≠ "abc" → (Init stub function args).2.state k = stub.state k) ∧
    (∀ a v e, args = [a] → Atoi a = some v → stub.putErr "abc" = some e →
      Init stub function args = (Reply.error e, stub)) ∧
    (Atoi "+5" = some 5 ∧ Atoi "005" = some 5 ∧ Itoa 5 = "5") := by
  refine ⟨?_, ?_, ?_, ?_, by decide⟩
  · intro h
    simp [Init, h]
  · intro a ha hn
    subst ha
    simp [Init, hn]
  · intro a v ha hv hp
    subst ha
    simp only [Init, PutState, List.length_cons, List.length_nil, List.getD_cons_zero, hv, hp]
    refine ⟨by simp, by simp, by simp, ?_⟩
    intro k hk
    simp [hk]
  · intro a v e ha hv hp
    subst ha
    simp [Init, PutState, hv, hp]

theorem C9_Init_seeds_abc_witness :
    (Init emptyStub "init" ["+5"]).1 = Reply.ok none ∧
    (Init emptyStub "init" ["+5"]).2.state "abc" = some (Itoa 5) ∧
    (Init emptyStub "init" ["+5"]).2.writes = emptyStub.writes ++ [("abc", Itoa 5)] ∧
    ∀ k, k ≠ "abc" → (Init emptyStub "init" ["+5"]).2.state k = emptyStub.state k :=
  (C9_Init_seeds_abc emptyStub "init" ["+5"]).2.2.1 "+5" 5 rfl (by decide) rfl

/-- C10. `Invoke` runs `Init` (with the name `init`, which `Init` does not look at) for
`init`, `write` for `write` and `init_claim` for `init_claim`; `Query` runs `read` for
`read`.  Under any other name each answers with its unknown-function error, whose text
ends with the name received, and returns the stub unchanged. -/
theorem C10_dispatch (stub : ChaincodeStub) (unixNano : Int) (function : String)
    (args : List String) :
    Invoke stub unixNano "init" args = Init stub function args ∧
    Invoke stub unixNano "write" args = write stub args ∧
    Invoke stub unixNano "init_claim" args = init_claim stub unixNano args ∧
    Query stub "read" args = read stub args ∧
    (function ≠ "init" → function ≠ "write" → function ≠ "init_claim" →
      Invoke stub unixNano function args =
        (Reply.error ("Received unknown function invocation: " ++ function), stub)) ∧
    (function ≠ "read" →
      Query stub function args =
        (Reply.error ("Received unknown function query: " ++ function), stub)) := by
  refine ⟨?_, ?_, ?_, ?_, ?_, ?_⟩
  · simp [Invoke, Init]
  · simp [Invoke]
  · simp [Invoke]
  · simp [Query]
  · intro h1 h2 h3
    simp [Invoke, h1, h2, h3]
  · intro h
    simp [Query, h]

theorem C10_dispatch_witness :
    Invoke emptyStub 0 "delete" ["abc"] =
        (Reply.error ("Received unknown function invocation: " ++ "delete"), emptyStub) ∧
    Query emptyStub "delete" ["abc"] =
        (Reply.error ("Received unknown function query: " ++ "delete"), emptyStub) :=
  ⟨(C10_dispatch emptyStub 0 "delete" ["abc"]).2.2.2.2.1 (by decide) (by decide) (by decide),
   (C10_dispatch emptyStub 0 "delete" ["abc"]).2.2.2.2.2 (by decide)⟩


/-! ## How `init_claim` runs -/

theorem PutState_getErr (stub : ChaincodeStub) (key value : String) :
    (PutState stub key value).2.getErr = stub.getErr := by
  unfold PutState
  cases stub.putErr key <;> rfl

theorem PutState_putErr (stub : ChaincodeStub) (key value : String) :
    (PutState stub key value).2.putErr = stub.putErr := by
  unfold PutState
  cases stub.putErr key <;> rfl

theorem PutState_ok (stub : ChaincodeStub) (key value : String) (h : stub.putErr key = none) :
    PutState stub key value =
      (none,
        { stub with
          state := fun k => if k = key then some value else stub.state k
          writes := stub.writes ++ [(key, value)] }) := by
  simp [PutState, h]

theorem PutState_fail (stub : ChaincodeStub) (key value e : String)
    (h : stub.putErr key = some e) : PutState stub key value = (some e, stub) := by
  simp [PutState, h]

/-- A successful `init_claim` had three non-empty arguments. -/
theorem init_claim_ok_args (stub : ChaincodeStub) (unixNano : Int) (args : List String)
    (hok : (init_claim stub unixNano args).1 = Reply.ok none) :
    ∃ id cust amount, args = [id, cust, amount] ∧ id ≠ "" ∧ cust ≠ "" ∧ amount ≠ "" := by
  match args, hok with
  | [], hok => simp [init_claim] at hok
  | [_], hok => simp [init_claim] at hok
  | [_, _], hok => simp [init_claim] at hok
  | _ :: _ :: _ :: _ :: _, hok => simp [init_claim] at hok
  | [id, cust, amount], hok =>
    have e1 := length_le_zero_iff id
    have e2 := length_le_zero_iff cust
    have e3 := length_le_zero_iff amount
    refine ⟨id, cust, amount, rfl, ?_, ?_, ?_⟩
    · intro h
      simp [init_claim, h] at hok
    · intro h
      by_cases h1 : id = ""
      · simp [init_claim, h1] at hok
      · simp [init_claim, h, h1, e1] at hok
    · intro h
      by_cases h1 : id = ""
      · simp [init_claim, h1] at hok
      · by_cases h2 : cust = ""
        · simp [init_claim, h1, h2, e1] at hok
        · simp [init_claim, h, h1, h2, e1, e2] at hok

/-- What a successful `init_claim` went through: both gets answered, the existence
check found no claim with this id, the put of the record went through, and the stub
returned is the one after the put of the index (whether or not that put went through). -/
theorem init_claim_ok_run (stub : ChaincodeStub) (unixNano : Int) (id cust amount : String)
    (hok : (init_claim stub unixNano [id, cust, amount]).1 = Reply.ok none) :
    stub.getErr id = none ∧ (loadClaim stub id).Id ≠ id ∧ stub.putErr id = none ∧
    stub.getErr claimIndexStr = none ∧
    (init_claim stub unixNano [id, cust, amount]).2 =
      (PutState (PutState stub id (claimJson id cust amount (makeTimestamp unixNano))).2
        claimIndexStr
        (jsonMarshalStrings
          (loadIndex (PutState stub id (claimJson id cust amount (makeTimestamp unixNano))).2
            ++ [id]))).2 := by
  obtain ⟨id1, cust1, amount1, hargs, h1, h2, h3⟩ := init_claim_ok_args stub unixNano _ hok
  simp only [List.cons.injEq, and_true] at hargs
  obtain ⟨rfl, rfl, rfl⟩ := hargs
  rw [init_claim_valid stub unixNano id cust amount h1 h2 h3] at hok ⊢
  simp only [GetState, loadClaim, loadIndex] at hok ⊢
  cases hg : stub.getErr id with
  | some e => simp [hg] at hok
  | none =>
    simp only [hg] at hok ⊢
    by_cases hd : (jsonUnmarshalSmartClaim (stub.state id) ⟨"", "", 0, ""⟩).Id = id
    · simp [hd] at hok
    · simp only [hd, if_false] at hok ⊢
      cases hp : stub.putErr id with
      | some e =>
        rw [PutState_fail stub id _ e hp] at hok
        simp at hok
      | none =>
        rw [PutState_ok stub id _ hp] at hok ⊢
        simp only at hok ⊢
        cases hgi : stub.getErr claimIndexStr with
        | some e => simp [hgi] at hok
        | none => simp [hgi, hd]

/-- The run of `init_claim` on a fresh id when both gets and the put of the record are
answered: success, and the stub after the put of the index. -/
theorem init_claim_fresh (stub : ChaincodeStub) (unixNano : Int) (id cust amount : String)
    (h1 : id ≠ "") (h2 : cust ≠ "") (h3 : amount ≠ "")
    (hg : stub.getErr id = none) (hd : (loadClaim stub id).Id ≠ id)
    (hp : stub.putErr id = none) (hgi : stub.getErr claimIndexStr = none) :
    init_claim stub unixNano [id, cust, amount] =
      (Reply.ok none,
        (PutState (PutState stub id (claimJson id cust amount (makeTimestamp unixNano))).2
          claimIndexStr
          (jsonMarshalStrings
            (loadIndex (PutState stub id (claimJson id cust amount (makeTimestamp unixNano))).2
              ++ [id]))).2) := by
  have hP : PutState stub id (claimJson id cust amount (makeTimestamp unixNano)) =
      (none, (PutState stub id (claimJson id cust amount (makeTimestamp unixNano))).2) := by
    simp [PutState, hp]
  rw [init_claim_valid stub unixNano id cust amount h1 h2 h3]
  simp only [loadClaim] at hd
  simp only [GetState, hg, hd, if_false]
  rw [hP]
  simp only [PutState_getErr, hgi, loadIndex]

/-- The ledger after a put that went through. -/
theorem PutState_state (stub : ChaincodeStub) (key value : String)
    (h : stub.putErr key = none) (k : String) :
    (PutState stub key value).2.state k = if k = key then some value else stub.state k := by
  rw [PutState_ok stub key value h]

/-- The write log after a put that went through. -/
theorem PutState_writes (stub : ChaincodeStub) (key value : String)
    (h : stub.putErr key = none) :
    (PutState stub key value).2.writes = stub.writes ++ [(key, value)] := by
  rw [PutState_ok stub key value h]

theorem loadClaim_absent (stub : ChaincodeStub) (key : String) (h : stub.state key = none) :
    loadClaim stub key = ⟨"", "", 0, ""⟩ := by
  simp only [loadClaim, h]
  rfl

theorem loadClaim_empty (stub : ChaincodeStub) (key : String) (h : stub.state key = some "") :
    loadClaim stub key = ⟨"", "", 0, ""⟩ := by
  simp only [loadClaim, h]
  rfl

/-- C7, what the code does. A refused put of the claim record is reported: the backend's
error is returned and nothing is stored.  A refused put of the index is not: its error
is assigned and never looked at, `init_claim` answers with success, and the stub is the
one left by the put of the record, the index not updated. -/
theorem C7_index_put_error_dropped (stub : ChaincodeStub) (unixNano : Int)
    (id cust amount e : String) (h1 : id ≠ "") (h2 : cust ≠ "") (h3 : amount ≠ "")
    (hg : stub.getErr id = none) (hd : (loadClaim stub id).Id ≠ id) :
    (stub.putErr id = some e →
      init_claim stub unixNano [id, cust, amount] = (Reply.error e, stub)) ∧
    (stub.putErr id = none → stub.getErr claimIndexStr = none →
      stub.putErr claimIndexStr = some e →
      (init_claim stub unixNano [id, cust, amount]).1 = Reply.ok none ∧
      (init_claim stub unixNano [id, cust, amount]).2 =
        (PutState stub id (claimJson id cust amount (makeTimestamp unixNano))).2) := by
  constructor
  · intro hp
    rw [init_claim_valid stub unixNano id cust amount h1 h2 h3]
    simp only [loadClaim] at hd
    simp only [GetState, hg, hd, if_false]
    rw [PutState_fail stub id _ e hp]
  · intro hp hgi hpi
    rw [init_claim_fresh stub unixNano id cust amount h1 h2 h3 hg hd hp hgi]
    refine ⟨rfl, ?_⟩
    simp only
    rw [PutState_fail _ claimIndexStr _ e (by rw [PutState_putErr]; exact hpi)]

theorem C7_index_put_error_dropped_witness :
    (init_claim indexPutRefused 0 ["100", "1", "150"]).1 = Reply.ok none ∧
    (init_claim indexPutRefused 0 ["100", "1", "150"]).2 =
      (PutState indexPutRefused "100" (claimJson "100" "1" "150" (makeTimestamp 0))).2 :=
  (C7_index_put_error_dropped indexPutRefused 0 "100" "1" "150" "ledger refused the put"
    (by decide) (by decide) (by decide) rfl (by decide)).2 rfl rfl (by decide)

/-- C4 at the spec's own scenario. `init_claim ["100", "1", "150"]` succeeds, `read`
returns the stored text, and `json.Unmarshal` of that text into a `SmartClaim` yields
the id and the customer id but neither the amount (written without quotes, so a JSON
number that the `string` field refuses) nor the date (written in quotes, so a JSON
string that the `int64` field refuses): both keep their zero values. -/
theorem C4_record_does_not_round_trip :
    (init_claim emptyStub 1478123456789000000 ["100", "1", "150"]).1 = Reply.ok none ∧
    (read (init_claim emptyStub 1478123456789000000 ["100", "1", "150"]).2 ["100"]).1 =
      Reply.ok (some ("\x7b\"id\": \"100\", \"customerId\": \"1\", \"claimAmount\": 150, " ++
        "\"claimDate\": \"1478123456789\"\x7d")) ∧
    makeTimestamp 1478123456789000000 = 1478123456789 ∧
    loadClaim (init_claim emptyStub 1478123456789000000 ["100", "1", "150"]).2 "100" =
      ⟨"100", "1", 0, ""⟩ := by
  decide

/-- C8. When the ledger holds under `id` nothing, the empty value, or bytes that do not
decode to a claim whose id is `id`, the existence check does not fire: `init_claim`
does not answer "This claim arleady exists" (the one way to see that text would be a
backend that words its own refusal of the put so).  On a backend that answers every get
and put, it puts the record under `id`, then the index, and answers with success; the
record stays under `id` unless `id` is the index key, which the second put overwrites. -/
theorem C8_existence_check_tolerant (stub : ChaincodeStub) (unixNano : Int)
    (id cust amount : String) (h1 : id ≠ "") (h2 : cust ≠ "") (h3 : amount ≠ "")
    (hval : stub.state id = none ∨ stub.state id = some "" ∨ (loadClaim stub id).Id ≠ id) :
    (stub.putErr id ≠ some "This claim arleady exists" →
      (init_claim stub unixNano [id, cust, amount]).1 ≠
        Reply.error "This claim arleady exists") ∧
    ((∀ k, stub.getErr k = none) → (∀ k, stub.putErr k = none) →
      (init_claim stub unixNano [id, cust, amount]).1 = Reply.ok none ∧
      (init_claim stub unixNano [id, cust, amount]).2.writes =
        stub.writes ++
          [(id, claimJson id cust amount (makeTimestamp unixNano)),
           (claimIndexStr,
            jsonMarshalStrings
              (loadIndex (PutState stub id (claimJson id cust amount (makeTimestamp unixNano))).2
                ++ [id]))] ∧
      (id ≠ claimIndexStr →
        (init_claim stub unixNano [id, cust, amount]).2.state id =
          some (claimJson id cust amount (makeTimestamp unixNano)))) := by
  have hd : (loadClaim stub id).Id ≠ id := by
    rcases hval with h | h | h
    · rw [loadClaim_absent stub id h]
      exact fun h => h1 h.symm
    · rw [loadClaim_empty stub id h]
      exact fun h => h1 h.symm
    · exact h
  have hd0 := hd
  simp only [loadClaim] at hd
  constructor
  · intro hne
    rw [init_claim_valid stub unixNano id cust amount h1 h2 h3]
    simp only [GetState]
    cases hg : stub.getErr id with
    | some e => simp
    | none =>
      simp only [hd, if_false]
      cases hp : stub.putErr id with
      | some e =>
        rw [PutState_fail stub id _ e hp]
        simp only [ne_eq, Reply.error.injEq]
        intro he
        exact hne (by rw [hp, he])
      | none =>
        rw [PutState_ok stub id _ hp]
        simp only
        cases hgi : stub.getErr claimIndexStr with
        | some e => simp
        | none => simp
  · intro hget hput
    rw [init_claim_fresh stub unixNano id cust amount h1 h2 h3 (hget id) hd0 (hput id)
      (hget claimIndexStr)]
    have hpi : (PutState stub id (claimJson id cust amount (makeTimestamp unixNano))).2.putErr
        claimIndexStr = none := by
      rw [PutState_putErr]
      exact hput claimIndexStr
    refine ⟨rfl, ?_, ?_⟩
    · simp only
      rw [PutState_writes _ _ _ hpi, PutState_writes _ _ _ (hput id)]
      simp
    · intro hne
      simp only
      rw [PutState_state _ _ _ hpi, PutState_state _ _ _ (hput id)]
      simp [hne]

theorem C8_existence_check_tolerant_witness :
    (init_claim emptyStub 0 ["100", "1", "150"]).1 = Reply.ok none ∧
    (init_claim emptyStub 0 ["100", "1", "150"]).2.writes =
      emptyStub.writes ++
        [("100", claimJson "100" "1" "150" (makeTimestamp 0)),
         (claimIndexStr,
          jsonMarshalStrings
            (loadIndex (PutState emptyStub "100" (claimJson "100" "1" "150" (makeTimestamp 0))).2
              ++ ["100"]))] ∧
    ("100" ≠ claimIndexStr →
      (init_claim emptyStub 0 ["100", "1", "150"]).2.state "100" =
        some (claimJson "100" "1" "150" (makeTimestamp 0))) :=
  (C8_existence_check_tolerant emptyStub 0 "100" "1" "150" (by decide) (by decide) (by decide)
    (Or.inl rfl)).2 (fun _ => rfl) (fun _ => rfl)


/-- C1, as the code has it. Let `init_claim [id, cust, amount]` succeed, for an id other
than the index key and arguments whose concatenated record text is JSON that decodes to
a claim with this id (as for `100`, `1`, `150`).  Then a second `init_claim` with the
same id and any non-empty customer id and amount answers "This claim arleady exists"
and returns the stub as the first call left it, the bytes under `id` being the record
text the first call stored. -/
theorem C1_create_once (stub : ChaincodeStub) (t1 t2 : Int)
    (id cust amount cust2 amount2 : String)
    (h4 : cust2 ≠ "") (h5 : amount2 ≠ "") (hid : id ≠ claimIndexStr)
    (hdec : (jsonUnmarshalSmartClaim (some (claimJson id cust amount (makeTimestamp t1)))
      ⟨"", "", 0, ""⟩).Id = id)
    (hok : (init_claim stub t1 [id, cust, amount]).1 = Reply.ok none) :
    init_claim (init_claim stub t1 [id, cust, amount]).2 t2 [id, cust2, amount2] =
      (Reply.error "This claim arleady exists", (init_claim stub t1 [id, cust, amount]).2) ∧
    (init_claim stub t1 [id, cust, amount]).2.state id =
      some (claimJson id cust amount (makeTimestamp t1)) := by
  obtain ⟨id1, cust1, amount1, hargs, h1, _, _⟩ := init_claim_ok_args stub t1 _ hok
  simp only [List.cons.injEq, and_true] at hargs
  obtain ⟨rfl, rfl, rfl⟩ := hargs
  obtain ⟨hg, _, hp, _, hrun⟩ := init_claim_ok_run stub t1 id cust amount hok
  have hstate : (init_claim stub t1 [id, cust, amount]).2.state id =
      some (claimJson id cust amount (makeTimestamp t1)) := by
    rw [hrun]
    cases hpi : stub.putErr claimIndexStr with
    | some e =>
      rw [PutState_fail _ claimIndexStr _ e (by rw [PutState_putErr]; exact hpi)]
      simp only
      rw [PutState_state _ _ _ hp]
      simp
    | none =>
      rw [PutState_state _ _ _ (by rw [PutState_putErr]; exact hpi), PutState_state _ _ _ hp]
      simp [hid]
  have hget : (init_claim stub t1 [id, cust, amount]).2.getErr id = none := by
    rw [hrun, PutState_getErr, PutState_getErr]
    exact hg
  refine ⟨?_, hstate⟩
  rw [init_claim_valid _ t2 id cust2 amount2 h1 h4 h5]
  simp only [GetState, hget, hstate, hdec, if_true]

theorem C1_create_once_witness :
    init_claim (init_claim emptyStub 0 ["100", "1", "150"]).2 7000000 ["100", "2", "99"] =
      (Reply.error "This claim arleady exists", (init_claim emptyStub 0 ["100", "1", "150"]).2) ∧
    (init_claim emptyStub 0 ["100", "1", "150"]).2.state "100" =
      some (claimJson "100" "1" "150" (makeTimestamp 0)) :=
  C1_create_once emptyStub 0 7000000 "100" "1" "150" "2" "99" (by decide) (by decide)
    (by decide) (by decide) (by decide)

/-- C1 as stated fails, in two ways.  `a"`, `b`, `1` are three non-empty arguments and
the call succeeds, but the quote inside the id is copied into the record text unescaped,
so the text is not JSON and the existence check of the next call decodes nothing: the
second call with the same id succeeds too and replaces the bytes under the id.  And for
the id `_claimindex` the record is overwritten by the index within the first call, so
the second call finds no claim either and succeeds. -/
theorem C1_counterexample :
    ((init_claim emptyStub 0 ["a\"", "b", "1"]).1 = Reply.ok none ∧
      (init_claim (init_claim emptyStub 0 ["a\"", "b", "1"]).2 0 ["a\"", "c", "2"]).1 =
        Reply.ok none ∧
      (init_claim (init_claim emptyStub 0 ["a\"", "b", "1"]).2 0 ["a\"", "c", "2"]).2.state
          "a\"" ≠
        (init_claim emptyStub 0 ["a\"", "b", "1"]).2.state "a\"") ∧
    ((init_claim emptyStub 0 ["_claimindex", "1", "150"]).1 = Reply.ok none ∧
      (init_claim (init_claim emptyStub 0 ["_claimindex", "1", "150"]).2 0
        ["_claimindex", "1", "150"]).1 = Reply.ok none) := by
  decide

/-! ## `json.Marshal` of a string list is read back by `json.Unmarshal` -/

theorem hexVal_hexDigit (k : Nat) (h : k < 16) : hexVal (hexDigit k) = some k := by
  interval_cases k <;> decide

theorem scanStringBody_quote (tl : List Char) : scanStringBody ('"' :: tl) = some ([], tl) := by
  rw [scanStringBody.eq_def]
  simp

/-- One character written by `escapeChar` is read back as one unit that decodes to it. -/
theorem scanStringBody_escapeChar (c : Char) (tl : List Char) :
    ∃ tok, (∀ ts, decodeToks none (tok :: ts) = c :: decodeToks none ts) ∧
      scanStringBody (escapeChar c ++ tl) =
        match scanStringBody tl with
        | none => none
        | some (ts, r) => some (tok :: ts, r) := by
  unfold escapeChar
  split_ifs with h1 h2 h3 h4 h5 h6 h7 h8
  · subst h1
    refine ⟨StrTok.lit '"', fun ts => rfl, ?_⟩
    rw [scanStringBody.eq_def]
    simp [simpleEscape]
  · subst h2
    refine ⟨StrTok.lit '\\', fun ts => rfl, ?_⟩
    rw [scanStringBody.eq_def]
    simp [simpleEscape]
  · subst h3
    refine ⟨StrTok.lit '\n', fun ts => rfl, ?_⟩
    rw [scanStringBody.eq_def]
    simp [simpleEscape]
  · subst h4
    refine ⟨StrTok.lit '\r', fun ts => rfl, ?_⟩
    rw [scanStringBody.eq_def]
    simp [simpleEscape]
  · subst h5
    refine ⟨StrTok.lit '\t', fun ts => rfl, ?_⟩
    rw [scanStringBody.eq_def]
    simp [simpleEscape]
  · have hn : c.toNat < 64 := by
      rcases h6 with h | h | h | h
      · omega
      · subst h; decide
      · subst h; decide
      · subst h; decide
    refine ⟨StrTok.u4 c.toNat, ?_, ?_⟩
    · intro ts
      have : ¬ (55296 ≤ c.toNat ∧ c.toNat < 56320) := by omega
      have h' : ¬ (56320 ≤ c.toNat ∧ c.toNat < 57344) := by omega
      simp only [decodeToks, this, h', if_false, Char.ofNat_toNat]
    · have e1 : hexVal (hexDigit (c.toNat / 16)) = some (c.toNat / 16) :=
        hexVal_hexDigit _ (by omega)
      have e2 : hexVal (hexDigit (c.toNat % 16)) = some (c.toNat % 16) :=
        hexVal_hexDigit _ (by omega)
      have e0 : hexVal '0' = some 0 := by decide
      have e4 : hex4 '0' '0' (hexDigit (c.toNat / 16)) (hexDigit (c.toNat % 16)) =
          some c.toNat := by
        simp only [hex4, e0, e1, e2]
        congr 1
        omega
      rw [scanStringBody.eq_def]
      simp [e4]
  · subst h7
    refine ⟨StrTok.u4 8232, fun ts => rfl, ?_⟩
    have e4 : hex4 '2' '0' '2' '8' = some 8232 := by decide
    rw [scanStringBody.eq_def]
    simp [e4]
  · subst h8
    refine ⟨StrTok.u4 8233, fun ts => rfl, ?_⟩
    have e4 : hex4 '2' '0' '2' '9' = some 8233 := by decide
    rw [scanStringBody.eq_def]
    simp [e4]
  · refine ⟨StrTok.lit c, fun ts => rfl, ?_⟩
    have h32 : ¬ c.toNat < 32 := fun h => h6 (Or.inl h)
    rw [scanStringBody.eq_def]
    simp [h1, h2, h32]

/-- A string literal written by `json.Marshal` is read back as the string. -/
theorem scanString_escapeString (s tl : List Char) :
    scanString (escapeString s ++ '"' :: tl) = some (s, tl) := by
  have key : ∀ s : List Char, ∃ ts, scanStringBody (escapeString s ++ '"' :: tl) = some (ts, tl) ∧
      decodeToks none ts = s := by
    intro s
    induction s with
    | nil => exact ⟨[], scanStringBody_quote tl, rfl⟩
    | cons c cs ih =>
      obtain ⟨ts, hts, hdec⟩ := ih
      obtain ⟨tok, htok, hscan⟩ := scanStringBody_escapeChar c (escapeString cs ++ '"' :: tl)
      refine ⟨tok :: ts, ?_, ?_⟩
      · simp only [escapeString, List.append_assoc]
        rw [hscan, hts]
      · rw [htok, hdec]
  obtain ⟨ts, hts, hdec⟩ := key s
  simp only [scanString, hts, hdec]

theorem quoteString_append (s : String) (tl : List Char) :
    quoteString s ++ tl = '"' :: (escapeString s.data ++ '"' :: tl) := by
  simp [quoteString]

theorem parseValue_quoteString (fuel : Nat) (s : String) (tl : List Char) :
    parseValue (fuel + 1) (quoteString s ++ tl) = some (JValue.string s.data, tl) := by
  rw [quoteString_append, parseValue.eq_def]
  simp [skipSpace, isSpace, scanString_escapeString]

/-- The elements of a marshalled string array are read back in order. -/
theorem parseElems_marshalTail (xs : List String) :
    ∀ (fuel : Nat) (acc : List JValue) (x : String) (tl : List Char),
      xs.length + 2 ≤ fuel →
      parseElems fuel acc (quoteString x ++ (marshalTail xs ++ ']' :: tl)) =
        some (JValue.array (acc ++ (x :: xs).map (fun s => JValue.string s.data)), tl) := by
  induction xs with
  | nil =>
    intro fuel acc x tl hf
    obtain ⟨f, rfl⟩ : ∃ f, fuel = f + 2 := ⟨fuel - 2, by simp at hf; omega⟩
    rw [parseElems.eq_def]
    simp [parseValue_quoteString, marshalTail, skipSpace, isSpace]
  | cons y ys ih =>
    intro fuel acc x tl hf
    obtain ⟨f, rfl⟩ : ∃ f, fuel = f + 2 := ⟨fuel - 2, by simp at hf; omega⟩
    rw [parseElems.eq_def]
    simp only [parseValue_quoteString, marshalTail, List.cons_append, skipSpace, isSpace]
    have := ih (f + 1) (acc ++ [JValue.string x.data]) y tl (by simp at hf ⊢; omega)
    simp [this]

theorem parseValue_marshalStrings (x : String) (xs : List String) (fuel : Nat)
    (tl : List Char) (hf : xs.length + 2 ≤ fuel) :
    parseValue (fuel + 1) ('[' :: (quoteString x ++ (marshalTail xs ++ ']' :: tl))) =
      some (JValue.array ((x :: xs).map (fun s => JValue.string s.data)), tl) := by
  have hp := parseElems_marshalTail xs fuel [] x tl hf
  rw [quoteString_append] at hp ⊢
  rw [parseValue.eq_def]
  simp [skipSpace, isSpace, hp]

theorem length_le_marshalTail (xs : List String) : xs.length ≤ (marshalTail xs).length := by
  induction xs with
  | nil => simp
  | cons y ys ih =>
    simp only [marshalTail, List.length_cons, List.length_append]
    omega

/-- The parser reads a marshalled string list back as the array of its strings. -/
theorem parseJSON_marshalStrings (xs : List String) :
    parseJSON (jsonMarshalStrings xs).data =
      some (JValue.array (xs.map (fun s => JValue.string s.data))) := by
  cases xs with
  | nil => rfl
  | cons x xs =>
    have hlen := length_le_marshalTail xs
    simp only [jsonMarshalStrings, parseJSON]
    have e : ∀ L : Nat, 2 * L + 2 = (2 * L + 1) + 1 := fun L => rfl
    rw [e, parseValue_marshalStrings x xs _ [] (by simp; omega)]
    simp [skipSpace]

theorem jsonUnmarshalStrings_marshal (xs old : List String) :
    jsonUnmarshalStrings (some (jsonMarshalStrings xs)) old = xs := by
  simp only [jsonUnmarshalStrings, bytesOf, parseJSON_marshalStrings, List.map_map]
  conv_rhs => rw [← List.map_id xs]
  apply List.map_congr_left
  intro s _
  rfl

/-! ## The claim index along a run -/

theorem loadIndex_of_absent (stub : ChaincodeStub) (h : stub.state claimIndexStr = none) :
    loadIndex stub = [] := by
  simp only [loadIndex, h]
  rfl

/-- A successful `init_claim` for an id other than the index key, on a backend that
accepts the put of the index, leaves the index it found with the id appended; the
backend's behaviour is not part of what a call changes. -/
theorem init_claim_index_step (stub : ChaincodeStub) (unixNano : Int)
    (id cust amount : String) (hid : id ≠ claimIndexStr)
    (hpi : stub.putErr claimIndexStr = none)
    (hok : (init_claim stub unixNano [id, cust, amount]).1 = Reply.ok none) :
    loadIndex (init_claim stub unixNano [id, cust, amount]).2 = loadIndex stub ++ [id] ∧
    (init_claim stub unixNano [id, cust, amount]).2.putErr = stub.putErr := by
  obtain ⟨_, _, hp, _, hrun⟩ := init_claim_ok_run stub unixNano id cust amount hok
  rw [hrun]
  have hS : loadIndex (PutState stub id (claimJson id cust amount (makeTimestamp unixNano))).2 =
      loadIndex stub := by
    simp only [loadIndex]
    rw [PutState_state _ _ _ hp]
    simp [Ne.symm hid]
  constructor
  · rw [hS]
    simp only [loadIndex]
    rw [PutState_state _ _ _ (by rw [PutState_putErr]; exact hpi)]
    simp only [if_true]
    exact jsonUnmarshalStrings_marshal _ _
  · rw [PutState_putErr, PutState_putErr]

/-- Along a run of successful calls, none for the index key, on a backend that accepts
the puts of the index, the index grows by the ids of the calls in call order. -/
theorem runClaims_index (calls : List (Int × List String)) :
    ∀ stub : ChaincodeStub, stub.putErr claimIndexStr = none →
      (∀ r ∈ (runClaims stub calls).1, r = Reply.ok none) →
      claimIndexStr ∉ claimIds calls →
      loadIndex (runClaims stub calls).2 = loadIndex stub ++ claimIds calls := by
  induction calls with
  | nil =>
    intro stub _ _ _
    simp [runClaims, claimIds]
  | cons call rest ih =>
    intro stub hpi hok hres
    have hok1 : (init_claim stub call.1 call.2).1 = Reply.ok none :=
      hok _ (by simp [runClaims])
    obtain ⟨id, cust, amount, hargs, _, _, _⟩ := init_claim_ok_args stub call.1 call.2 hok1
    have hid : id ≠ claimIndexStr := by
      intro h
      apply hres
      simp [claimIds, hargs, h]
    rw [hargs] at hok1
    obtain ⟨hstep, hput⟩ := init_claim_index_step stub call.1 id cust amount hid hpi hok1
    have hrest := ih (init_claim stub call.1 call.2).2
      (by rw [hargs, hput]; exact hpi)
      (fun r hr => hok r (by simp only [runClaims, List.mem_cons]; exact Or.inr hr))
      (fun h => hres (by simp only [claimIds, List.map_cons, List.mem_cons] at h ⊢
                         exact Or.inr h))
    simp only [runClaims]
    rw [hrest, hargs, hstep]
    simp [claimIds, hargs]

/-- C3, as the code has it. Start from a ledger that holds nothing, on a backend that
accepts the puts of the index.  After any run of successful `init_claim` calls with
pairwise distinct ids, none of them the index key `_claimindex`, the value under
`_claimindex` decodes to the list of those ids in call order. -/
theorem C3_index_lists_ids_in_call_order (stub : ChaincodeStub)
    (calls : List (Int × List String))
    (hempty : ∀ k, stub.state k = none) (hpi : stub.putErr claimIndexStr = none)
    (hok : ∀ r ∈ (runClaims stub calls).1, r = Reply.ok none)
    (_hdistinct : (claimIds calls).Nodup) (hres : claimIndexStr ∉ claimIds calls) :
    jsonUnmarshalStrings ((runClaims stub calls).2.state claimIndexStr) [] = claimIds calls := by
  have h := runClaims_index calls stub hpi hok hres
  rw [loadIndex_of_absent stub (hempty claimIndexStr)] at h
  simpa [loadIndex] using h

theorem C3_index_lists_ids_in_call_order_witness :
    jsonUnmarshalStrings
      ((runClaims emptyStub [(0, ["100", "1", "150"])]).2.state claimIndexStr) [] = ["100"] ∧
    jsonUnmarshalStrings
      ((runClaims emptyStub [(0, ["100", "1", "150"]), (5000000, ["7", "1", "20"])]).2.state
        claimIndexStr) [] = ["100", "7"] :=
  ⟨C3_index_lists_ids_in_call_order emptyStub [(0, ["100", "1", "150"])]
      (fun _ => rfl) rfl (by decide) (by decide) (by decide),
    C3_index_lists_ids_in_call_order emptyStub
      [(0, ["100", "1", "150"]), (5000000, ["7", "1", "20"])]
      (fun _ => rfl) rfl (by decide) (by decide) (by decide)⟩

/-- C3 as stated fails: from the empty ledger the calls for `a` and for `_claimindex`
both succeed and their ids differ, but the second call stores its record under the
index key, reads it back as an index that does not decode, and leaves the index
holding `_claimindex` alone; the id `a` is gone. -/
theorem C3_counterexample :
    (runClaims emptyStub [(0, ["a", "1", "1"]), (0, ["_claimindex", "1", "1"])]).1 =
      [Reply.ok none, Reply.ok none] ∧
    (claimIds [(0, ["a", "1", "1"]), (0, ["_claimindex", "1", "1"])]).Nodup ∧
    jsonUnmarshalStrings
      ((runClaims emptyStub [(0, ["a", "1", "1"]), (0, ["_claimindex", "1", "1"])]).2.state
        claimIndexStr) [] = ["_claimindex"] ∧
    jsonUnmarshalStrings
      ((runClaims emptyStub [(0, ["a", "1", "1"]), (0, ["_claimindex", "1", "1"])]).2.state
        claimIndexStr) [] ≠ claimIds [(0, ["a", "1", "1"]), (0, ["_claimindex", "1", "1"])] := by
  decide


/-! ## Argument counts, frames and partial failure -/

/-- C11. With a number of arguments other than the one it expects (2 for `write`, 1 for
`read`, 3 for `init_claim`, 1 for `Init`) each handler answers with its argument-count
error and returns the stub unchanged.  `write` with exactly two arguments looks at
neither of them: whatever the key and the value are, empty strings included, when the
backend accepts the put the reply is a success and the ledger holds the value under
the key. -/
theorem C11_argument_count (stub : ChaincodeStub) (unixNano : Int) (function : String)
    (args : List String) :
    (args.length ≠ 2 →
      write stub args =
        (Reply.error
          "Incorrect number of arguments. Expecting 2. name of the key and value to set",
          stub)) ∧
    (args.length ≠ 1 →
      read stub args =
        (Reply.error "Incorrect number of arguments. Expecting name of the key to query",
          stub)) ∧
    (args.length ≠ 3 →
      init_claim stub unixNano args =
        (Reply.error "Incorrect number of arguments. Expecting 3", stub)) ∧
    (args.length ≠ 1 →
      Init stub function args =
        (Reply.error "Incorrect number of arguments. Expecting 1", stub)) ∧
    (∀ key value, stub.putErr key = none →
      (write stub [key, value]).1 = Reply.ok none ∧
      (write stub [key, value]).2.state key = some value ∧
      (write stub [key, value]).2.writes = stub.writes ++ [(key, value)]) := by
  refine ⟨?_, ?_, ?_, ?_, ?_⟩
  · intro h
    simp [write, h]
  · intro h
    simp [read, h]
  · intro h
    simp [init_claim, h]
  · intro h
    simp [Init, h]
  · intro key value hp
    simp [write, PutState, hp]

theorem C11_argument_count_witness :
    write emptyStub ["abc"] =
      (Reply.error
        "Incorrect number of arguments. Expecting 2. name of the key and value to set",
        emptyStub) ∧
    ((write emptyStub ["", ""]).1 = Reply.ok none ∧
      (write emptyStub ["", ""]).2.state "" = some "" ∧
      (write emptyStub ["", ""]).2.writes = emptyStub.writes ++ [("", "")]) :=
  ⟨(C11_argument_count emptyStub 0 "write" ["abc"]).1 (by decide),
   (C11_argument_count emptyStub 0 "write" ["abc"]).2.2.2.2 "" "" rfl⟩

/-- Every way an `init_claim` call can end: with an error and the stub untouched; with
"Failed to get claim index" after the put of the record; or with success after the put
of the index. -/
theorem init_claim_cases (stub : ChaincodeStub) (unixNano : Int) (args : List String) :
    (∃ msg, init_claim stub unixNano args = (Reply.error msg, stub)) ∨
    (∃ id cust amount, args = [id, cust, amount] ∧ id ≠ "" ∧ cust ≠ "" ∧ amount ≠ "" ∧
      stub.getErr id = none ∧ (loadClaim stub id).Id ≠ id ∧ stub.putErr id = none ∧
      ((stub.getErr claimIndexStr ≠ none ∧
          init_claim stub unixNano args =
            (Reply.error "Failed to get claim index",
              (PutState stub id (claimJson id cust amount (makeTimestamp unixNano))).2)) ∨
        (stub.getErr claimIndexStr = none ∧
          init_claim stub unixNano args =
            (Reply.ok none,
              (PutState (PutState stub id (claimJson id cust amount (makeTimestamp unixNano))).2
                claimIndexStr
                (jsonMarshalStrings
                  (loadIndex
                    (PutState stub id (claimJson id cust amount (makeTimestamp unixNano))).2
                    ++ [id]))).2)))) := by
  match args with
  | [] => exact Or.inl ⟨"Incorrect number of arguments. Expecting 3", by simp [init_claim]⟩
  | [_] => exact Or.inl ⟨"Incorrect number of arguments. Expecting 3", by simp [init_claim]⟩
  | [_, _] => exact Or.inl ⟨"Incorrect number of arguments. Expecting 3", by simp [init_claim]⟩
  | _ :: _ :: _ :: _ :: _ =>
    exact Or.inl ⟨"Incorrect number of arguments. Expecting 3", by simp [init_claim]⟩
  | [id, cust, amount] =>
    have e1 := length_le_zero_iff id
    have e2 := length_le_zero_iff cust
    have e3 := length_le_zero_iff amount
    by_cases h1 : id = ""
    · exact Or.inl ⟨"1st argument must be a non-empty string", by simp [init_claim, h1]⟩
    by_cases h2 : cust = ""
    · exact Or.inl ⟨"2nd argument must be a non-empty string", by simp [init_claim, h1, h2, e1]⟩
    by_cases h3 : amount = ""
    · exact Or.inl ⟨"3rd argument must be a non-empty string",
        by simp [init_claim, h1, h2, h3, e1, e2]⟩
    cases hg : stub.getErr id with
    | some e =>
      refine Or.inl ⟨"Failed to get marble name", ?_⟩
      rw [init_claim_valid stub unixNano id cust amount h1 h2 h3]
      simp [GetState, hg]
    | none =>
      by_cases hd : (loadClaim stub id).Id = id
      · refine Or.inl ⟨"This claim arleady exists", ?_⟩
        rw [init_claim_valid stub unixNano id cust amount h1 h2 h3]
        simp only [loadClaim] at hd
        simp [GetState, hg, hd]
      cases hp : stub.putErr id with
      | some e =>
        refine Or.inl ⟨e, ?_⟩
        rw [init_claim_valid stub unixNano id cust amount h1 h2 h3]
        simp only [loadClaim] at hd
        simp only [GetState, hg, hd, if_false]
        rw [PutState_fail stub id _ e hp]
      | none =>
        refine Or.inr ⟨id, cust, amount, rfl, h1, h2, h3, hg, hd, hp, ?_⟩
        cases hgi : stub.getErr claimIndexStr with
        | none =>
          exact Or.inr ⟨rfl, init_claim_fresh stub unixNano id cust amount h1 h2 h3 hg hd hp hgi⟩
        | some e =>
          refine Or.inl ⟨by simp, ?_⟩
          have hP : PutState stub id (claimJson id cust amount (makeTimestamp unixNano)) =
              (none, (PutState stub id (claimJson id cust amount (makeTimestamp unixNano))).2) := by
            simp [PutState, hp]
          rw [init_claim_valid stub unixNano id cust amount h1 h2 h3]
          simp only [loadClaim] at hd
          simp only [GetState, hg, hd, if_false]
          rw [hP]
          simp only [PutState_getErr, hgi]

/-- A put, accepted or refused, leaves every other key as it was. -/
theorem PutState_state_other (stub : ChaincodeStub) (key value k : String) (h : k ≠ key) :
    (PutState stub key value).2.state k = stub.state k := by
  unfold PutState
  cases stub.putErr key with
  | some e => rfl
  | none => simp [h]

theorem unknown_invocation_ne (function : String) :
    "Received unknown function invocation: " ++ function ≠ "Failed to get claim index" := by
  intro h
  have h2 := congrArg (fun s => s.data.head?) h
  simp at h2

/-- C16. `init_claim` changes the value of no key other than its first argument and
`_claimindex`; `write` changes no key other than its first argument; `read`, and with
it every `Query`, returns the stub as it was.  A call through `Invoke` or `Query` that
answers with one of the argument errors, with "This claim arleady exists" or with the
unknown-function error returns the stub unchanged. -/
theorem C16_frame (stub : ChaincodeStub) (unixNano : Int) (function : String)
    (args : List String) :
    (∀ k, k ≠ args.getD 0 "" → k ≠ claimIndexStr →
      (init_claim stub unixNano args).2.state k = stub.state k) ∧
    (∀ k, k ≠ args.getD 0 "" → (write stub args).2.state k = stub.state k) ∧
    (read stub args).2 = stub ∧
    (Query stub function args).2 = stub ∧
    (∀ msg, (Invoke stub unixNano function args).1 = Reply.error msg →
      (msg ∈ validationMessages ∨ msg = "This claim arleady exists" ∨
        msg = "Received unknown function invocation: " ++ function) →
      (Invoke stub unixNano function args).2 = stub) := by
  have hread : (read stub args).2 = stub := by
    unfold read
    split_ifs
    · rfl
    · simp only
      cases GetState stub (args.getD 0 "") <;> rfl
  have hwrite : ∀ k, k ≠ args.getD 0 "" → (write stub args).2.state k = stub.state k := by
    intro k hk
    unfold write
    split_ifs
    · rfl
    · simp only
      have := PutState_state_other stub (args.getD 0 "") (args.getD 1 "") k hk
      revert this
      cases hP : PutState stub (args.getD 0 "") (args.getD 1 "") with
      | mk e s1 => cases e <;> exact fun h => h
  have hwerr : ∀ msg, (write stub args).1 = Reply.error msg → (write stub args).2 = stub := by
    intro msg
    unfold write
    split_ifs
    · exact fun _ => rfl
    · simp only [PutState]
      cases stub.putErr (args.getD 0 "") with
      | some e => exact fun _ => rfl
      | none => simp
  have hierr : ∀ msg, (Init stub "init" args).1 = Reply.error msg →
      (Init stub "init" args).2 = stub := by
    intro msg
    unfold Init
    split_ifs
    · exact fun _ => rfl
    · cases Atoi (args.getD 0 "") with
      | none => exact fun _ => rfl
      | some v =>
        simp only [PutState]
        cases stub.putErr "abc" with
        | some e => exact fun _ => rfl
        | none => simp
  refine ⟨?_, hwrite, hread, ?_, ?_⟩
  · intro k hk hki
    rcases init_claim_cases stub unixNano args with ⟨msg, h⟩ |
      ⟨id, cust, amount, hargs, _, _, _, _, _, _, ⟨_, h⟩ | ⟨_, h⟩⟩
    · rw [h]
    · rw [h]
      subst hargs
      exact PutState_state_other _ _ _ _ hk
    · rw [h]
      subst hargs
      simp only
      rw [PutState_state_other _ _ _ _ hki]
      exact PutState_state_other _ _ _ _ hk
  · unfold Query
    split_ifs
    · exact hread
    · rfl
  · intro msg hmsg hkind
    unfold Invoke at hmsg ⊢
    split_ifs at hmsg ⊢ with f1 f2 f3
    · exact hierr msg hmsg
    · exact hwerr msg hmsg
    · rcases init_claim_cases stub unixNano args with ⟨m, h⟩ |
        ⟨id, cust, amount, hargs, _, _, _, _, _, _, ⟨_, h⟩ | ⟨_, h⟩⟩
      · rw [h]
      · rw [h] at hmsg
        simp only [Reply.error.injEq] at hmsg
        subst hmsg
        exfalso
        rcases hkind with hk | hk | hk
        · revert hk
          decide
        · revert hk
          decide
        · exact unknown_invocation_ne function hk.symm
      · rw [h] at hmsg
        simp at hmsg
    · rfl

theorem C16_frame_witness :
    (init_claim emptyStub 0 ["100", "1", "150"]).2.state "abc" = emptyStub.state "abc" ∧
    (Invoke (init_claim emptyStub 0 ["100", "1", "150"]).2 0 "init_claim" ["100", "2", "3"]).2 =
      (init_claim emptyStub 0 ["100", "1", "150"]).2 :=
  ⟨(C16_frame emptyStub 0 "init_claim" ["100", "1", "150"]).1 "abc" (by decide) (by decide),
   (C16_frame (init_claim emptyStub 0 ["100", "1", "150"]).2 0 "init_claim"
      ["100", "2", "3"]).2.2.2.2 "This claim arleady exists" (by decide) (Or.inr (Or.inl rfl))⟩

/-! ## The index key used as a claim id -/

/-- C15, as the code has it. For every ledger, whatever it holds under the index key,
and every successful `init_claim` for an id other than `_claimindex` on a backend that
accepts the put of the index, the decoded index after the call is the decoded index
before the call with the id appended at the end; the old index is a prefix of the new
one, which is longer by exactly one.  An absent index decodes to the empty list. -/
theorem C15_index_append (stub : ChaincodeStub) (unixNano : Int) (id cust amount : String)
    (hid : id ≠ claimIndexStr) (hpi : stub.putErr claimIndexStr = none)
    (hok : (init_claim stub unixNano [id, cust, amount]).1 = Reply.ok none) :
    loadIndex (init_claim stub unixNano [id, cust, amount]).2 = loadIndex stub ++ [id] ∧
    loadIndex stub <+: loadIndex (init_claim stub unixNano [id, cust, amount]).2 ∧
    (loadIndex (init_claim stub unixNano [id, cust, amount]).2).length =
      (loadIndex stub).length + 1 ∧
    (stub.state claimIndexStr = none → loadIndex stub = []) := by
  have h := (init_claim_index_step stub unixNano id cust amount hid hpi hok).1
  refine ⟨h, ?_, ?_, loadIndex_of_absent stub⟩
  · rw [h]
    exact List.prefix_append _ _
  · rw [h]
    simp

theorem C15_index_append_witness :
    loadIndex (init_claim (init_claim emptyStub 0 ["100", "1", "150"]).2 0 ["7", "1", "20"]).2 =
      loadIndex (init_claim emptyStub 0 ["100", "1", "150"]).2 ++ ["7"] ∧
    loadIndex (init_claim emptyStub 0 ["100", "1", "150"]).2 <+:
      loadIndex (init_claim (init_claim emptyStub 0 ["100", "1", "150"]).2 0 ["7", "1", "20"]).2 ∧
    (loadIndex
      (init_claim (init_claim emptyStub 0 ["100", "1", "150"]).2 0 ["7", "1", "20"]).2).length =
      (loadIndex (init_claim emptyStub 0 ["100", "1", "150"]).2).length + 1 ∧
    ((init_claim emptyStub 0 ["100", "1", "150"]).2.state claimIndexStr = none →
      loadIndex (init_claim emptyStub 0 ["100", "1", "150"]).2 = []) :=
  C15_index_append (init_claim emptyStub 0 ["100", "1", "150"]).2 0 "7" "1" "20"
    (by decide) (by decide) (by decide)

/-- C15 as stated fails: after the claim `a` the index decodes to `a` alone; the call
for the id `_claimindex` succeeds and leaves an index that decodes to `_claimindex`
alone, which is not the old index with the id appended. -/
theorem C15_counterexample :
    loadIndex (init_claim emptyStub 0 ["a", "1", "1"]).2 = ["a"] ∧
    (init_claim (init_claim emptyStub 0 ["a", "1", "1"]).2 0 ["_claimindex", "1", "1"]).1 =
      Reply.ok none ∧
    loadIndex
      (init_claim (init_claim emptyStub 0 ["a", "1", "1"]).2 0 ["_claimindex", "1", "1"]).2 =
      ["_claimindex"] ∧
    loadIndex
      (init_claim (init_claim emptyStub 0 ["a", "1", "1"]).2 0 ["_claimindex", "1", "1"]).2 ≠
      loadIndex (init_claim emptyStub 0 ["a", "1", "1"]).2 ++ ["_claimindex"] := by
  decide

/-- The characters of the record text. -/
theorem claimJson_data (id cust amount : String) (t : Int) :
    (claimJson id cust amount t).data =
      '{' :: '"' :: (['i', 'd'] ++ '"' :: ':' :: ' ' :: '"' ::
        (id.data ++ '"' :: ',' :: ' ' :: '"' ::
          (['c', 'u', 's', 't', 'o', 'm', 'e', 'r', 'I', 'd'] ++ '"' :: ':' :: ' ' :: '"' ::
            (cust.data ++ '"' :: ',' :: ' ' :: '"' ::
              (['c', 'l', 'a', 'i', 'm', 'A', 'm', 'o', 'u', 'n', 't'] ++ '"' :: ':' :: ' ' ::
                (amount.data ++ ',' :: ' ' :: '"' ::
                  (['c', 'l', 'a', 'i', 'm', 'D', 'a', 't', 'e'] ++ '"' :: ':' :: ' ' :: '"' ::
                    ((FormatInt t).data ++ ['"', '}'])))))))) := by
  simp only [claimJson, String.data_append, List.append_assoc]
  rfl

theorem scanStringBody_plain (s tl : List Char) (h : ∀ c ∈ s, plainChar c) :
    scanStringBody (s ++ '"' :: tl) = some (s.map StrTok.lit, tl) := by
  induction s with
  | nil => exact scanStringBody_quote tl
  | cons c cs ih =>
    obtain ⟨h1, h2, h3⟩ := h c (List.mem_cons_self c cs)
    have ih1 := ih (fun d hd => h d (List.mem_cons_of_mem c hd))
    rw [List.cons_append, scanStringBody.eq_def]
    simp [h1, h2, h3, ih1]

theorem decodeToks_lit (s : List Char) : decodeToks none (s.map StrTok.lit) = s := by
  induction s with
  | nil => rfl
  | cons c cs ih => simp [decodeToks, ih]

/-- A string literal without quote, backslash and control characters is read as it is
written. -/
theorem scanString_plain (s tl : List Char) (h : ∀ c ∈ s, plainChar c) :
    scanString (s ++ '"' :: tl) = some (s, tl) := by
  simp only [scanString, scanStringBody_plain s tl h, decodeToks_lit]

theorem plainChar_of_isAlnum (c : Char) (h : isAlnum c = true) : plainChar c := by
  refine ⟨?_, ?_, ?_⟩
  · intro hc
    subst hc
    revert h
    decide
  · intro hc
    subst hc
    revert h
    decide
  · intro hc
    have h0 : ¬ ('0' ≤ c) := by
      intro h0
      have : (48 : Nat) ≤ c.toNat := h0
      omega
    have ha : ¬ ('a' ≤ c) := by
      intro h0
      have : (97 : Nat) ≤ c.toNat := h0
      omega
    have hA : ¬ ('A' ≤ c) := by
      intro h0
      have : (65 : Nat) ≤ c.toNat := h0
      omega
    simp [isAlnum, h0, ha, hA] at h

theorem plainChar_digitChar (n : Nat) : plainChar (Nat.digitChar n) := by
  by_cases h : n < 16
  · interval_cases n <;> exact ⟨by decide, by decide, by decide⟩
  · have e : Nat.digitChar n = '*' := by
      unfold Nat.digitChar
      repeat rw [if_neg (by omega)]
    rw [e]
    exact ⟨by decide, by decide, by decide⟩

theorem plainChar_toDigitsCore (fuel : Nat) :
    ∀ (n : Nat) (ds : List Char), (∀ c ∈ ds, plainChar c) →
      ∀ c ∈ Nat.toDigitsCore 10 fuel n ds, plainChar c := by
  induction fuel with
  | zero =>
    intro n ds hds c hc
    simp only [Nat.toDigitsCore] at hc
    exact hds c hc
  | succ f ih =>
    intro n ds hds c hc
    simp only [Nat.toDigitsCore] at hc
    have hcons : ∀ d ∈ Nat.digitChar (n % 10) :: ds, plainChar d := by
      intro d hd
      rcases List.mem_cons.1 hd with rfl | hd
      · exact plainChar_digitChar _
      · exact hds d hd
    split_ifs at hc
    · exact hcons c hc
    · exact ih _ _ hcons c hc

/-- The decimal text of the claim date has no character that needs an escape. -/
theorem plainChar_FormatInt (t : Int) : ∀ c ∈ (FormatInt t).data, plainChar c := by
  have hrepr : ∀ n : Nat, ∀ c ∈ (Nat.repr n).data, plainChar c := by
    intro n c hc
    simp only [Nat.repr, Nat.toDigits, List.asString] at hc
    exact plainChar_toDigitsCore _ _ _ (by simp) c hc
  intro c hc
  unfold FormatInt at hc
  split_ifs at hc
  · simp only [String.data_append, List.mem_append] at hc
    rcases hc with hc | hc
    · have : c = '-' := by simpa using hc
      subst this
      exact ⟨by decide, by decide, by decide⟩
    · exact hrepr _ c hc
  · exact hrepr _ c hc

theorem spanDigits_cons (c : Char) (cs : List Char) :
    spanDigits (c :: cs) =
      if isDigit c then (c :: (spanDigits cs).1, (spanDigits cs).2) else ([], c :: cs) := rfl

theorem spanDigits_append_comma (a rest : List Char) :
    spanDigits (a ++ ',' :: rest) = ((spanDigits a).1, (spanDigits a).2 ++ ',' :: rest) := by
  induction a with
  | nil => rfl
  | cons d ds ih =>
    simp only [List.cons_append, spanDigits_cons, ih]
    split_ifs <;> rfl

theorem spanDigits_cons_append_comma (s : Char) (r rest : List Char) :
    spanDigits (s :: (r ++ ',' :: rest)) =
      ((spanDigits (s :: r)).1, (spanDigits (s :: r)).2 ++ ',' :: rest) :=
  spanDigits_append_comma (s :: r) rest

theorem scanExp_append_comma (a rest : List Char) :
    scanExp (a ++ ',' :: rest) =
      (scanExp a).map (fun p => (p.1, p.2 ++ ',' :: rest)) := by
  cases a with
  | nil => rfl
  | cons e r =>
    by_cases he : e = 'e' ∨ e = 'E'
    · cases r with
      | nil =>
        simp only [List.cons_append, List.nil_append, scanExp, he, if_true]
        rfl
      | cons s r1 =>
        simp only [List.cons_append, scanExp, he, if_true, spanDigits_append_comma,
          spanDigits_cons_append_comma]
        split_ifs <;> rfl
    · simp only [List.cons_append, scanExp, he, if_false]
      rfl

theorem scanExp_cons_append_comma (e : Char) (r rest : List Char) :
    scanExp (e :: (r ++ ',' :: rest)) =
      (scanExp (e :: r)).map (fun p => (p.1, p.2 ++ ',' :: rest)) :=
  scanExp_append_comma (e :: r) rest

theorem scanFrac_append_comma (a rest : List Char) :
    scanFrac (a ++ ',' :: rest) =
      (scanFrac a).map (fun p => (p.1, p.2 ++ ',' :: rest)) := by
  cases a with
  | nil => rfl
  | cons d r =>
    by_cases hd : d = '.'
    · simp only [List.cons_append, scanFrac, hd, if_true, spanDigits_append_comma,
        scanExp_append_comma]
      split_ifs
      · rfl
      · cases scanExp (spanDigits r).2 with
        | none => rfl
        | some p => simp
    · simp only [List.cons_append, scanFrac, hd, if_false, scanExp_cons_append_comma]

theorem scanUnsigned_append_comma (a rest : List Char) :
    scanUnsigned (a ++ ',' :: rest) =
      (scanUnsigned a).map (fun p => (p.1, p.2 ++ ',' :: rest)) := by
  cases a with
  | nil => rfl
  | cons d r =>
    simp only [List.cons_append, scanUnsigned, spanDigits_append_comma, scanFrac_append_comma]
    split_ifs with h0 hd
    · cases scanFrac r with
      | none => rfl
      | some p => simp
    · cases scanFrac (spanDigits r).2 with
      | none => rfl
      | some p => simp
    · rfl

theorem scanUnsigned_cons_append_comma (d : Char) (r rest : List Char) :
    scanUnsigned (d :: (r ++ ',' :: rest)) =
      (scanUnsigned (d :: r)).map (fun p => (p.1, p.2 ++ ',' :: rest)) :=
  scanUnsigned_append_comma (d :: r) rest

/-- Scanning a number that is followed by a comma goes as without the comma, which is
left unread. -/
theorem scanNumber_append_comma (a rest : List Char) :
    scanNumber (a ++ ',' :: rest) =
      (scanNumber a).map (fun p => (p.1, p.2 ++ ',' :: rest)) := by
  cases a with
  | nil => rfl
  | cons c r =>
    by_cases hc : c = '-'
    · simp only [List.cons_append, scanNumber, hc, if_true, scanUnsigned_append_comma]
      cases scanUnsigned r with
      | none => rfl
      | some p => simp
    · simp only [List.cons_append, scanNumber, hc, if_false, scanUnsigned_cons_append_comma]

/-- A number literal starts with the minus sign or a digit. -/
theorem scanNumber_head (c : Char) (r : List Char) (p : List Char × List Char)
    (h : scanNumber (c :: r) = some p) : c = '-' ∨ isDigit c = true := by
  simp only [scanNumber] at h
  split_ifs at h with hc
  · exact Or.inl hc
  · simp only [scanUnsigned] at h
    split_ifs at h with h0 hd
    · right
      rw [h0]
      decide
    · exact Or.inr hd

/-- A number literal in front of a comma is read as a number, up to the comma. -/
theorem parseValue_number (fuel : Nat) (amt rest : List Char)
    (h : scanNumber amt = some (amt, [])) :
    parseValue (fuel + 1) (' ' :: (amt ++ ',' :: rest)) =
      some (JValue.number amt, ',' :: rest) := by
  cases amt with
  | nil => simp [scanNumber] at h
  | cons c r =>
    have hc := scanNumber_head c r _ h
    have hne : ∀ x : Char, ¬ (x = '-' ∨ isDigit x = true) → c ≠ x := by
      intro x hx hcx
      exact hx (hcx ▸ hc)
    have n1 := hne ' ' (by decide)
    have n2 := hne '\t' (by decide)
    have n3 := hne '\r' (by decide)
    have n4 := hne '\n' (by decide)
    have n5 := hne '{' (by decide)
    have n6 := hne '[' (by decide)
    have n7 := hne '"' (by decide)
    have n8 := hne 't' (by decide)
    have n9 := hne 'f' (by decide)
    have n10 := hne 'n' (by decide)
    have hs := scanNumber_append_comma (c :: r) rest
    rw [h] at hs
    simp only [List.cons_append, Option.map_some', List.nil_append] at hs
    rw [parseValue.eq_def]
    simp [skipSpace, isSpace, n1, n2, n3, n4, n5, n6, n7, n8, n9, n10, hs]

theorem parseMembers_space (n : Nat) (acc : List (List Char × JValue)) (cs : List Char) :
    parseMembers (n + 1) acc (' ' :: cs) = parseMembers (n + 1) acc cs := by
  rw [parseMembers.eq_def, parseMembers.eq_def]
  simp [skipSpace, isSpace]

theorem parseValue_string (fuel : Nat) (s tl : List Char) (h : ∀ c ∈ s, plainChar c) :
    parseValue (fuel + 1) (' ' :: '"' :: (s ++ '"' :: tl)) = some (JValue.string s, tl) := by
  rw [parseValue.eq_def]
  simp [skipSpace, isSpace, scanString_plain s tl h]

/-- One member with a string value, a comma behind it. -/
theorem parseMembers_string_comma (n : Nat) (acc : List (List Char × JValue))
    (key val rest : List Char) (hk : ∀ c ∈ key, plainChar c) (hv : ∀ c ∈ val, plainChar c) :
    parseMembers (n + 2) acc
        ('"' :: (key ++ '"' :: ':' :: ' ' :: '"' :: (val ++ '"' :: ',' :: rest))) =
      parseMembers (n + 1) (acc ++ [(key, JValue.string val)]) rest := by
  rw [parseMembers.eq_def]
  simp [skipSpace, isSpace, scanString_plain key _ hk, parseValue_string n val _ hv]

/-- The last member, with a string value and the closing brace behind it. -/
theorem parseMembers_string_last (n : Nat) (acc : List (List Char × JValue))
    (key val rest : List Char) (hk : ∀ c ∈ key, plainChar c) (hv : ∀ c ∈ val, plainChar c) :
    parseMembers (n + 2) acc
        ('"' :: (key ++ '"' :: ':' :: ' ' :: '"' :: (val ++ '"' :: '}' :: rest))) =
      some (JValue.object (acc ++ [(key, JValue.string val)]), rest) := by
  rw [parseMembers.eq_def]
  simp [skipSpace, isSpace, scanString_plain key _ hk, parseValue_string n val _ hv]

/-- One member with a number value, a comma behind it. -/
theorem parseMembers_number_comma (n : Nat) (acc : List (List Char × JValue))
    (key amt rest : List Char) (hk : ∀ c ∈ key, plainChar c)
    (ha : scanNumber amt = some (amt, [])) :
    parseMembers (n + 2) acc ('"' :: (key ++ '"' :: ':' :: ' ' :: (amt ++ ',' :: rest))) =
      parseMembers (n + 1) (acc ++ [(key, JValue.number amt)]) rest := by
  rw [parseMembers.eq_def]
  simp [skipSpace, isSpace, scanString_plain key _ hk, parseValue_number n amt _ ha]

theorem parseValue_brace_quote (n : Nat) (rest : List Char) :
    parseValue (n + 1) ('{' :: '"' :: rest) = parseMembers n [] ('"' :: rest) := by
  rw [parseValue.eq_def]
  simp [skipSpace, isSpace]

theorem plainChar_of_allAlnum (s : String) (h : allAlnum s = true) :
    ∀ c ∈ s.data, plainChar c := by
  intro c hc
  simp only [allAlnum, List.all_eq_true] at h
  exact plainChar_of_isAlnum c (h c hc)

/-- The record text built from plain ids and a number literal is a JSON object with the
four members in the order written: the id and the customer id as strings, the amount as
a number, the date as a string. -/
theorem parseJSON_claimJson (id cust amount : String) (t : Int)
    (hid : ∀ c ∈ id.data, plainChar c) (hcust : ∀ c ∈ cust.data, plainChar c)
    (hamt : scanNumber amount.data = some (amount.data, [])) :
    parseJSON (claimJson id cust amount t).data =
      some (JValue.object
        [(['i', 'd'], JValue.string id.data),
         (['c', 'u', 's', 't', 'o', 'm', 'e', 'r', 'I', 'd'], JValue.string cust.data),
         (['c', 'l', 'a', 'i', 'm', 'A', 'm', 'o', 'u', 'n', 't'], JValue.number amount.data),
         (['c', 'l', 'a', 'i', 'm', 'D', 'a', 't', 'e'], JValue.string (FormatInt t).data)]) := by
  have k1 : ∀ c ∈ ['i', 'd'], plainChar c := by
    intro c hc
    simp only [List.mem_cons, List.mem_singleton, List.not_mem_nil, or_false] at hc
    rcases hc with rfl | rfl <;> exact ⟨by decide, by decide, by decide⟩
  have k2 : ∀ c ∈ ['c', 'u', 's', 't', 'o', 'm', 'e', 'r', 'I', 'd'], plainChar c := by
    intro c hc
    exact plainChar_of_isAlnum c (by revert c; decide)
  have k3 : ∀ c ∈ ['c', 'l', 'a', 'i', 'm', 'A', 'm', 'o', 'u', 'n', 't'], plainChar c := by
    intro c hc
    exact plainChar_of_isAlnum c (by revert c; decide)
  have k4 : ∀ c ∈ ['c', 'l', 'a', 'i', 'm', 'D', 'a', 't', 'e'], plainChar c := by
    intro c hc
    exact plainChar_of_isAlnum c (by revert c; decide)
  simp only [parseJSON]
  obtain ⟨m, hm⟩ : ∃ m, 2 * (claimJson id cust amount t).data.length + 2 = (m + 5) + 1 := by
    refine ⟨2 * (claimJson id cust amount t).data.length - 4, ?_⟩
    have : 2 ≤ (claimJson id cust amount t).data.length := by
      rw [claimJson_data]
      simp
    omega
  rw [hm, claimJson_data, parseValue_brace_quote,
    show m + 5 = m + 3 + 2 from rfl,
    parseMembers_string_comma (m + 3) _ _ _ _ k1 hid, parseMembers_space,
    show m + 3 + 1 = m + 2 + 2 from rfl,
    parseMembers_string_comma (m + 2) _ _ _ _ k2 hcust, parseMembers_space,
    show m + 2 + 1 = m + 1 + 2 from rfl,
    parseMembers_number_comma (m + 1) _ _ _ _ k3 hamt, parseMembers_space,
    show m + 1 + 1 = m + 2 from rfl,
    parseMembers_string_last m _ _ _ _ k4 (plainChar_FormatInt t)]
  simp [skipSpace]

/-- Decoding the record text of well-formed arguments into a `SmartClaim`: the id and the
customer id arrive; the amount, a JSON number, does not fit the string field and the
date, a JSON string, does not fit the integer field, so both keep their zero values. -/
theorem jsonUnmarshalSmartClaim_claimJson (id cust amount : String) (t : Int)
    (hid : ∀ c ∈ id.data, plainChar c) (hcust : ∀ c ∈ cust.data, plainChar c)
    (hamt : scanNumber amount.data = some (amount.data, [])) :
    jsonUnmarshalSmartClaim (some (claimJson id cust amount t)) ⟨"", "", 0, ""⟩ =
      ⟨id, cust, 0, ""⟩ := by
  have e1 : equalFold "id".data ['i', 'd'] = true := by decide
  have e2 : equalFold "id".data ['c', 'u', 's', 't', 'o', 'm', 'e', 'r', 'I', 'd'] = false := by
    decide
  have e3 : equalFold "customerId".data ['c', 'u', 's', 't', 'o', 'm', 'e', 'r', 'I', 'd'] =
      true := by decide
  have e4 : equalFold "id".data ['c', 'l', 'a', 'i', 'm', 'A', 'm', 'o', 'u', 'n', 't'] =
      false := by decide
  have e5 : equalFold "customerId".data
      ['c', 'l', 'a', 'i', 'm', 'A', 'm', 'o', 'u', 'n', 't'] = false := by decide
  have e6 : equalFold "claimDate".data
      ['c', 'l', 'a', 'i', 'm', 'A', 'm', 'o', 'u', 'n', 't'] = false := by decide
  have e7 : equalFold "claimAmount".data
      ['c', 'l', 'a', 'i', 'm', 'A', 'm', 'o', 'u', 'n', 't'] = true := by decide
  have e8 : equalFold "id".data ['c', 'l', 'a', 'i', 'm', 'D', 'a', 't', 'e'] = false := by
    decide
  have e9 : equalFold "customerId".data ['c', 'l', 'a', 'i', 'm', 'D', 'a', 't', 'e'] =
      false := by decide
  have e10 : equalFold "claimDate".data ['c', 'l', 'a', 'i', 'm', 'D', 'a', 't', 'e'] =
      true := by decide
  simp only [jsonUnmarshalSmartClaim, bytesOf, parseJSON_claimJson id cust amount t hid hcust hamt,
    List.foldl, setField, e1, e2, e3, e4, e5, e6, e7, e8, e9, e10, if_true, if_false,
    Bool.false_eq_true]

/-- A second `init_claim` for an id whose stored record decodes to that id is turned
down, and puts nothing. -/
theorem init_claim_again (stub : ChaincodeStub) (t1 t2 : Int)
    (id cust amount cust2 amount2 : String)
    (h4 : cust2 ≠ "") (h5 : amount2 ≠ "") (hid : id ≠ claimIndexStr)
    (hdec : (jsonUnmarshalSmartClaim (some (claimJson id cust amount (makeTimestamp t1)))
      ⟨"", "", 0, ""⟩).Id = id)
    (hok : (init_claim stub t1 [id, cust, amount]).1 = Reply.ok none) :
    init_claim (init_claim stub t1 [id, cust, amount]).2 t2 [id, cust2, amount2] =
      (Reply.error "This claim arleady exists", (init_claim stub t1 [id, cust, amount]).2) := by
  obtain ⟨id1, cust1, amount1, hargs, h1, _, _⟩ := init_claim_ok_args stub t1 _ hok
  simp only [List.cons.injEq, and_true] at hargs
  obtain ⟨rfl, rfl, rfl⟩ := hargs
  obtain ⟨hg, _, hp, _, hrun⟩ := init_claim_ok_run stub t1 id cust amount hok
  have hstate : (init_claim stub t1 [id, cust, amount]).2.state id =
      some (claimJson id cust amount (makeTimestamp t1)) := by
    rw [hrun, PutState_state_other _ _ _ _ hid, PutState_state _ _ _ hp]
    simp
  have hget : (init_claim stub t1 [id, cust, amount]).2.getErr id = none := by
    rw [hrun, PutState_getErr, PutState_getErr]
    exact hg
  rw [init_claim_valid _ t2 id cust2 amount2 h1 h4 h5]
  simp only [GetState, hget, hstate, hdec, if_true]

/-- C17. Let `id` and `cust` consist of ASCII letters and digits only (so `id` is not the
index key) and let `amount` be a JSON number literal, such as `0` or `150` and unlike
`007`.  Then the record text that `init_claim` builds is a JSON object whose first
member is `id` with the string `id` as value, decoding it into a `SmartClaim` sets
`Id = id`, and once `init_claim` has succeeded for these arguments, a second
`init_claim` with the same id, and any non-empty customer id and amount, answers
"This claim arleady exists" and returns the stub as it was: no put. -/
theorem C17_create_once_well_formed (stub : ChaincodeStub) (t1 t2 : Int)
    (id cust amount cust2 amount2 : String)
    (hid : allAlnum id = true) (hcust : allAlnum cust = true)
    (hamt : isNumberLiteral amount = true) :
    id ≠ claimIndexStr ∧
    (∃ rest, parseJSON (claimJson id cust amount (makeTimestamp t1)).data =
      some (JValue.object (("id".data, JValue.string id.data) :: rest))) ∧
    (jsonUnmarshalSmartClaim (some (claimJson id cust amount (makeTimestamp t1)))
      ⟨"", "", 0, ""⟩).Id = id ∧
    (cust2 ≠ "" → amount2 ≠ "" →
      (init_claim stub t1 [id, cust, amount]).1 = Reply.ok none →
      init_claim (init_claim stub t1 [id, cust, amount]).2 t2 [id, cust2, amount2] =
        (Reply.error "This claim arleady exists", (init_claim stub t1 [id, cust, amount]).2)) ∧
    (isNumberLiteral "0" = true ∧ isNumberLiteral "150" = true ∧
      isNumberLiteral "007" = false) := by
  have pid := plainChar_of_allAlnum id hid
  have pcust := plainChar_of_allAlnum cust hcust
  have pamt : scanNumber amount.data = some (amount.data, []) := by
    simpa [isNumberLiteral] using hamt
  have hne : id ≠ claimIndexStr := by
    intro h
    rw [h] at hid
    revert hid
    decide
  have hdec := jsonUnmarshalSmartClaim_claimJson id cust amount (makeTimestamp t1) pid pcust pamt
  refine ⟨hne, ⟨_, parseJSON_claimJson id cust amount (makeTimestamp t1) pid pcust pamt⟩, ?_, ?_,
    by decide⟩
  · rw [hdec]
  · intro h4 h5 hok
    exact init_claim_again stub t1 t2 id cust amount cust2 amount2 h4 h5 hne (by rw [hdec]) hok

theorem C17_create_once_well_formed_witness :
    init_claim (init_claim emptyStub 0 ["A7", "bob", "0"]).2 7000000 ["A7", "2", "99"] =
      (Reply.error "This claim arleady exists", (init_claim emptyStub 0 ["A7", "bob", "0"]).2) :=
  (C17_create_once_well_formed emptyStub 0 7000000 "A7" "bob" "0" "2" "99"
    (by decide) (by decide) (by decide)).2.2.2.1 (by decide) (by decide) (by decide)

/-! ## The index lists every created claim once -/

/-- One `init_claim` call with well-formed arguments keeps the index sound, and appends
its id to the index exactly when it answers with success. -/
theorem init_claim_sound (stub : ChaincodeStub) (unixNano : Int) (args : List String)
    (hpi : stub.putErr claimIndexStr = none)
    (hwf : wellFormedCall (unixNano, args) = true) (hinv : IndexSound stub) :
    IndexSound (init_claim stub unixNano args).2 ∧
    (init_claim stub unixNano args).2.putErr = stub.putErr ∧
    loadIndex (init_claim stub unixNano args).2 =
      loadIndex stub ++
        (if (init_claim stub unixNano args).1 = Reply.ok none then [args.getD 0 ""] else []) := by
  rcases init_claim_cases stub unixNano args with ⟨msg, h⟩ |
    ⟨id, cust, amount, hargs, h1, h2, h3, hg, hd, hp, hcase⟩
  · rw [h]
    simp [hinv]
  · subst hargs
    simp only [wellFormedCall, h1, h2, h3, decide_False, Bool.false_or, Bool.and_eq_true,
      decide_eq_true_eq] at hwf
    obtain ⟨hid, hdec⟩ := hwf
    have hnot : id ∉ loadIndex stub := fun hmem => hd (hinv.2 id hmem).2
    have hS_idx : loadIndex (PutState stub id
        (claimJson id cust amount (makeTimestamp unixNano))).2 = loadIndex stub := by
      simp only [loadIndex]
      rw [PutState_state_other _ _ _ _ (Ne.symm hid)]
    have hS_old : ∀ k, k ≠ id → loadClaim (PutState stub id
        (claimJson id cust amount (makeTimestamp unixNano))).2 k = loadClaim stub k := by
      intro k hk
      simp only [loadClaim]
      rw [PutState_state_other _ _ _ _ hk]
    rcases hcase with ⟨_, h⟩ | ⟨hgi, h⟩
    · rw [h]
      simp only [reduceCtorEq, if_false, List.append_nil]
      refine ⟨⟨by rw [hS_idx]; exact hinv.1, ?_⟩, PutState_putErr _ _ _, hS_idx⟩
      intro k hk
      rw [hS_idx] at hk
      have hk2 := hinv.2 k hk
      have hkid : k ≠ id := fun e => hnot (e ▸ hk)
      exact ⟨hk2.1, by rw [hS_old k hkid]; exact hk2.2⟩
    · have hok : (init_claim stub unixNano [id, cust, amount]).1 = Reply.ok none := by
        rw [h]
      obtain ⟨hstep, hput⟩ := init_claim_index_step stub unixNano id cust amount hid hpi hok
      refine ⟨⟨?_, ?_⟩, hput, ?_⟩
      · rw [hstep]
        exact List.Nodup.append hinv.1 (List.nodup_singleton id)
          (by simpa using hnot)
      · intro k hk
        rw [hstep, List.mem_append, List.mem_singleton] at hk
        have hstate : ∀ k, k ≠ claimIndexStr →
            loadClaim (init_claim stub unixNano [id, cust, amount]).2 k =
              loadClaim (PutState stub id
                (claimJson id cust amount (makeTimestamp unixNano))).2 k := by
          intro k hk
          rw [h]
          simp only [loadClaim]
          rw [PutState_state_other _ _ _ _ hk]
        rcases hk with hk | hk
        · have hk2 := hinv.2 k hk
          have hkid : k ≠ id := fun e => hnot (e ▸ hk)
          exact ⟨hk2.1, by rw [hstate k hk2.1, hS_old k hkid]; exact hk2.2⟩
        · subst hk
          refine ⟨hid, ?_⟩
          rw [hstate k hid]
          simp only [loadClaim]
          rw [PutState_state _ _ _ hp]
          simpa using hdec
      · rw [hstep, hok]
        simp

/-- Along a run of well-formed calls the index stays sound and grows by the ids of the
calls that succeeded. -/
theorem runClaims_sound (calls : List (Int × List String)) :
    ∀ stub : ChaincodeStub, stub.putErr claimIndexStr = none →
      (∀ call ∈ calls, wellFormedCall call = true) → IndexSound stub →
      IndexSound (runClaims stub calls).2 ∧
      loadIndex (runClaims stub calls).2 = loadIndex stub ++ succeededIds stub calls := by
  induction calls with
  | nil =>
    intro stub _ _ hinv
    simp [runClaims, succeededIds, hinv]
  | cons call rest ih =>
    intro stub hpi hwf hinv
    obtain ⟨hs, hput, hidx⟩ := init_claim_sound stub call.1 call.2 hpi
      (hwf call (List.mem_cons_self _ _)) hinv
    obtain ⟨hs2, hidx2⟩ := ih (init_claim stub call.1 call.2).2 (by rw [hput]; exact hpi)
      (fun c hc => hwf c (List.mem_cons_of_mem _ hc)) hs
    simp only [runClaims, succeededIds]
    refine ⟨hs2, ?_⟩
    rw [hidx2, hidx, List.append_assoc]

/-- Alphanumeric ids and customer ids with a number literal as amount make a well-formed
call, at any clock reading. -/
theorem wellFormedCall_of_alnum (unixNano : Int) (id cust amount : String)
    (hid : allAlnum id = true) (hcust : allAlnum cust = true)
    (hamt : isNumberLiteral amount = true) :
    wellFormedCall (unixNano, [id, cust, amount]) = true := by
  have pamt : scanNumber amount.data = some (amount.data, []) := by
    simpa [isNumberLiteral] using hamt
  have hne : id ≠ claimIndexStr := by
    intro h
    rw [h] at hid
    revert hid
    decide
  have hdec := jsonUnmarshalSmartClaim_claimJson id cust amount (makeTimestamp unixNano)
    (plainChar_of_allAlnum id hid) (plainChar_of_allAlnum cust hcust) pamt
  simp [wellFormedCall, hne, hdec]

/-- C13, as the code has it. Start from a ledger that holds nothing, on a backend that
accepts the puts of the index, and run any sequence of `init_claim` calls, successful or
not, in which every call with three non-empty arguments is well formed: its id is not
`_claimindex` and its record text decodes to a claim with its id.  Then the decoded
index lists no id twice, it is the list of the ids whose call succeeded, in call order,
and so each of these ids is in it exactly once. -/
theorem C13_index_unique (stub : ChaincodeStub) (calls : List (Int × List String))
    (hempty : ∀ k, stub.state k = none) (hpi : stub.putErr claimIndexStr = none)
    (hwf : ∀ call ∈ calls, wellFormedCall call = true) :
    (loadIndex (runClaims stub calls).2).Nodup ∧
    loadIndex (runClaims stub calls).2 = succeededIds stub calls ∧
    ∀ id ∈ succeededIds stub calls, (loadIndex (runClaims stub calls).2).count id = 1 := by
  have h0 : loadIndex stub = [] := loadIndex_of_absent stub (hempty claimIndexStr)
  have hinv : IndexSound stub := by
    simp [IndexSound, h0]
  obtain ⟨hs, hidx⟩ := runClaims_sound calls stub hpi hwf hinv
  rw [h0, List.nil_append] at hidx
  refine ⟨hs.1, hidx, ?_⟩
  intro id hmem
  exact List.count_eq_one_of_mem hs.1 (by rw [hidx]; exact hmem)

theorem C13_index_unique_witness :
    (loadIndex (runClaims emptyStub
      [(0, ["100", "1", "150"]), (1, ["100", "2", "7"]), (2, ["", "x", "y"]),
       (3, ["7", "1", "20"])]).2).Nodup ∧
    loadIndex (runClaims emptyStub
      [(0, ["100", "1", "150"]), (1, ["100", "2", "7"]), (2, ["", "x", "y"]),
       (3, ["7", "1", "20"])]).2 =
      succeededIds emptyStub
        [(0, ["100", "1", "150"]), (1, ["100", "2", "7"]), (2, ["", "x", "y"]),
         (3, ["7", "1", "20"])] ∧
    ∀ id ∈ succeededIds emptyStub
        [(0, ["100", "1", "150"]), (1, ["100", "2", "7"]), (2, ["", "x", "y"]),
         (3, ["7", "1", "20"])],
      (loadIndex (runClaims emptyStub
        [(0, ["100", "1", "150"]), (1, ["100", "2", "7"]), (2, ["", "x", "y"]),
         (3, ["7", "1", "20"])]).2).count id = 1 :=
  C13_index_unique emptyStub
    [(0, ["100", "1", "150"]), (1, ["100", "2", "7"]), (2, ["", "x", "y"]),
     (3, ["7", "1", "20"])]
    (fun _ => rfl) rfl (by decide)

/-- C13 as stated fails: `x`, `b`, `y` makes a record text that is not JSON, so the call
succeeds twice from the empty ledger and the index lists `x` twice. -/
theorem C13_counterexample :
    (runClaims emptyStub [(0, ["x", "b", "y"]), (0, ["x", "b", "y"])]).1 =
      [Reply.ok none, Reply.ok none] ∧
    loadIndex (runClaims emptyStub [(0, ["x", "b", "y"]), (0, ["x", "b", "y"])]).2 =
      ["x", "x"] ∧
    ¬ (loadIndex (runClaims emptyStub [(0, ["x", "b", "y"]), (0, ["x", "b", "y"])]).2).Nodup := by
  decide

end Fyp
